import Mathlib

/-!
Shallow embedding of `src/iso_msg.rs` of the iso8583-for-files repository
(an ISO 8583 message codec).  Buffers are `List Nat` (one `Nat` per octet),
Rust panics (failed `assert!`, out-of-range slice, `unwrap()` on `Err`/`None`,
arithmetic underflow) are modelled as `none`, and Rust `Result<T, &str>`
values as `Except String T`.  The `BitArray<u64, U128>` values from the
external `bit_array` crate are modelled as `List Bool` of length 128 with
the crate's documented bit order (bit 0 is the most significant bit of
byte 0, both in `from_bytes` and `to_bytes`).
-/

set_option maxRecDepth 8000

deriving instance DecidableEq for Except

namespace Iso8583

/-- Embeds `FieldSizeType` from `iso_field.rs` (declaration not under `src/`; the
variants are those matched in `iso_msg.rs` and listed by the spec §3:
Fixed, LlVar, LllVar, LlllVar, BitMap). -/
inductive FieldSizeType where
  | Fixed
  | LlVar
  | LllVar
  | LlllVar
  | BitMap
deriving DecidableEq, Repr

/-- Embeds `FieldCharType` from `iso_field.rs` (declaration not under `src/`; the
variants are the ones used by `iso_msg.rs` and its tests). -/
inductive FieldCharType where
  | Iso8583_ns
  | Iso8583_ans
  | Iso8583_an
  | Iso8583_anp
  | Iso8583_z
  | Iso8583_b
  | Iso8583_xn
  | Iso8583_bmp
  | Iso8583_bmps
deriving DecidableEq, Repr

/-- Embeds `IsoField` from `iso_field.rs`.  Modelled from the spec: `iso_field.rs`
is not under `src/`; this is §3's FieldSpec restricted to the members that
`iso_msg.rs` reads (`char_type`, `length`, `size_type`) plus the label. -/
structure IsoField where
  label : String
  char_type : FieldCharType
  length : Nat
  size_type : FieldSizeType
deriving DecidableEq, Repr

instance : Inhabited IsoField :=
  ⟨{ label := "", char_type := .Iso8583_ns, length := 0, size_type := .Fixed }⟩

/-- Embeds `FieldPayload` from `iso_field.rs`.  Modelled from the spec: §3's
FieldSlot with the member names used by `iso_msg.rs`; `FieldPayload::default()`
is the derived Rust `Default` (false / 0 / `None`). -/
structure FieldPayload where
  exist : Bool := false
  index : Nat := 0
  len : Nat := 0
  new_payload : Option (List Nat) := none
deriving DecidableEq, Repr

instance : Inhabited FieldPayload := ⟨{}⟩

/-- The message spec, `IsoSpecs::get_handle()`, as the ordered field table. -/
def IsoSpecs := List IsoField

/-- Embeds `IsoMsg`: borrowed payload, the spec handle, and one slot per position. -/
structure IsoMsg where
  payload : List Nat
  iso_spec : List IsoField
  fields : List FieldPayload
deriving DecidableEq

/-! ### Byte-level helpers (Rust slice / copy semantics) -/

/-- Rust `&b[a..]`: `none` (panic) when `a > b.len()`. -/
def sliceFrom (b : List Nat) (a : Nat) : Option (List Nat) :=
  if a ≤ b.length then some (b.drop a) else none

/-- Rust `&b[a..c]`: `none` (panic) when `c > b.len()` or `a > c`. -/
def sliceTo (b : List Nat) (a c : Nat) : Option (List Nat) :=
  if a ≤ c ∧ c ≤ b.length then some ((b.drop a).take (c - a)) else none

/-- Rust `dst[p .. p+src.len()].copy_from_slice(src)` (call sites guarantee the
range fits, so the result keeps `dst`'s length there). -/
def listWrite (dst : List Nat) (p : Nat) (src : List Nat) : List Nat :=
  dst.take p ++ src ++ dst.drop (p + src.length)

/-- In-place update of one list element (Rust `v[i] = f(v[i])`). -/
def listUpd {α : Type} (l : List α) (i : Nat) (g : α → α) : List α :=
  match l, i with
  | [], _ => []
  | x :: xs, 0 => g x :: xs
  | x :: xs, Nat.succ j => x :: listUpd xs j g

/-! ### `usize::from_str_radix(_, 10)` on raw bytes -/

/-- ASCII decimal digit value. -/
def digitVal (b : Nat) : Option Nat :=
  if 48 ≤ b ∧ b ≤ 57 then some (b - 48) else none

def parseDigitsAux : List Nat → Nat → Option Nat
  | [], acc => some acc
  | b :: bs, acc =>
    match digitVal b with
    | some d => parseDigitsAux bs (acc * 10 + d)
    | none => none

/-- Rust `usize::from_str_radix(s, 10)` where `s` is the raw byte run: an optional
leading `'+'` followed by at least one ASCII digit; anything else is `Err`
(which the source `unwrap()`s into a panic).  Bytes ≥ 0x80 reach
`from_str_radix` through `str::from_utf8_unchecked` and are not digits. -/
def from_str_radix10 (bs : List Nat) : Option Nat :=
  match bs with
  | [] => none
  | 43 :: rest => if rest.isEmpty then none else parseDigitsAux rest 0
  | _ => parseDigitsAux bs 0

/-! ### BitArray<u64, U128> (external `bit_array` crate) -/

/-- Embeds `BitArray::<u64, U128>::from_bytes`: most significant bit of each byte
first.  Used on 16-byte inputs, yielding 128 bits. -/
def bitarray_from_bytes (bs : List Nat) : List Bool :=
  bs.flatMap fun b => (List.range 8).map fun k => Nat.testBit b (7 - k)

/-- One byte from 8 bits, most significant first. -/
def bitsToByte (bs : List Bool) : Nat :=
  bs.foldl (fun a b => 2 * a + (if b then 1 else 0)) 0

/-- Embeds `BitArray::to_bytes` for a whole number of bytes (our arrays always
hold 128 bits). -/
def bitsToBytes : List Bool → List Nat
  | b0 :: b1 :: b2 :: b3 :: b4 :: b5 :: b6 :: b7 :: rest =>
    bitsToByte [b0, b1, b2, b3, b4, b5, b6, b7] :: bitsToBytes rest
  | _ => []

/-- Embeds `BitArray::from_elem(false)` for `U128`. -/
def bitarray_false : List Bool := List.replicate 128 false

/-! ### The numbered functions of `impl IsoMsg` -/

/-- Embeds `IsoMsg::process_bitmap`: takes `&bitmap_bytes[0..16]` (panic when fewer
than 16 bytes) and wraps the single decoded 128-bit array in a vector. -/
def process_bitmap (bitmap_bytes : List Nat) : Option (List (List Bool)) :=
  (sliceTo bitmap_bytes 0 16).map fun bm => [bitarray_from_bytes bm]

/-- Embeds `IsoMsg::get_field_length_prefix` for a spec position (named with `pfx`;
the source indexes `get_handle()[index]`, a panic when out of range). -/
def get_field_len_pfx (spec : List IsoField) (index : Nat) : Option Nat :=
  (spec.get? index).map fun f =>
    match f.size_type with
    | .LlVar => 2
    | .LllVar => 3
    | .LlllVar => 4
    | _ => 0

/-- Embeds `IsoMsg::get_field_length`: on-wire length of a present field read at the
head of `input_buffer` (= the buffer suffix starting at the cursor). -/
def get_field_length (iso_field : IsoField) (input_buffer : List Nat) : Option Nat :=
  match iso_field.size_type with
  | .Fixed => some iso_field.length
  | .LlVar => (sliceTo input_buffer 0 2).bind fun s => (from_str_radix10 s).map (· + 2)
  | .LllVar => (sliceTo input_buffer 0 3).bind fun s => (from_str_radix10 s).map (· + 3)
  | .LlllVar => (sliceTo input_buffer 0 4).bind fun s => (from_str_radix10 s).map (· + 4)
  | .BitMap => some 0

/-- Whether a field's character class is one of the two bitmap kinds. -/
def isBmpChar (f : IsoField) : Bool :=
  f.char_type = FieldCharType.Iso8583_bmp ∨ f.char_type = FieldCharType.Iso8583_bmps

/-- The loop body of `IsoMsg::from_byte_array`, recursing over the remaining
spec fields with the running state (`i`, `payload_index`, `found_bitmap`,
`bitmap_field_index`, `bit_arrays`). -/
def fba_loop (input : List Nat) :
    List IsoField → Nat → Nat → Bool → Nat → List (List Bool) →
    Option (List FieldPayload)
  | [], _, _, _, _, _ => some []
  | f :: rest, i, pidx, found, bfi, bas =>
    if ¬ found ∧ isBmpChar f then
      (sliceTo input 4 (4 + 16)).bind fun raw16 =>
      (process_bitmap raw16).bind fun bas2 =>
      (fba_loop input rest (i + 1) (pidx + 12) true i bas2).map
        (fun out => { exist := true, index := pidx, len := 12 } :: out)
    else
      (if found then
        match bas with
        | [] => none
        | ba :: _ => if i - bfi < 128 then some (ba.getD (i - bfi) false) else none
       else some true).bind fun field_exist =>
      if field_exist then
        (sliceFrom input pidx).bind fun sub =>
        (get_field_length f sub).bind fun flen =>
        (fba_loop input rest (i + 1) (pidx + flen) found bfi bas).map
          (fun out => { exist := true, index := pidx, len := flen } :: out)
      else
        (fba_loop input rest (i + 1) pidx found bfi bas).map
          (fun out => ({} : FieldPayload) :: out)

/-- Embeds `IsoMsg::from_byte_array`: fills one `FieldPayload` per spec position.
`none` models a panic (the Rust function returns nothing and can only fail
by panicking). -/
def from_byte_array (iso_spec : List IsoField) (input_buffer : List Nat) :
    Option (List FieldPayload) :=
  fba_loop input_buffer iso_spec 0 0 false 0 []

/-- Embeds `IsoMsg::new`: parse a payload against a spec. -/
def IsoMsg.new (iso_spec : List IsoField) (payload : List Nat) : Option IsoMsg :=
  (from_byte_array iso_spec payload).map fun fs =>
    { payload := payload, iso_spec := iso_spec, fields := fs }

/-- Embeds `IsoMsg::remove_field`: two `assert!`s, then clears `exist`.  The Rust
return value is always `Ok(())`; `none` models an assertion panic. -/
def remove_field (m : IsoMsg) (index : Nat) : Option IsoMsg :=
  if index < m.fields.length ∧ index < m.iso_spec.length then
    some { m with fields := listUpd m.fields index fun f => { f with exist := false } }
  else none

/-- Decimal ASCII digits of `n`, most significant first (`n = 0` gives `"0"`),
via enough fuel to be structural. -/
def natDecDigitsAux : Nat → Nat → List Nat
  | 0, _ => []
  | fuel + 1, n => if n < 10 then [48 + n] else natDecDigitsAux fuel (n / 10) ++ [48 + n % 10]

def natDecDigits (n : Nat) : List Nat := natDecDigitsAux (n + 1) n

/-- Rust `format!("{:0w$}", n)`: decimal digits left-padded with `'0'` to
width `w` (never truncated). -/
def fmtZeroPad (n w : Nat) : List Nat :=
  List.replicate (w - (natDecDigits n).length) 48 ++ natDecDigits n

/-- Embeds `IsoMsg::set_field`: three `assert!`s (modelled as `none` on failure),
then stores `new_payload = length-prefix ++ buffer` and sets `exist`.  The
Rust return value is always `Ok(())`. -/
def set_field (m : IsoMsg) (index : Nat) (buffer : List Nat) : Option IsoMsg :=
  if index < m.fields.length ∧ index < m.iso_spec.length ∧
      buffer.length ≤ (m.iso_spec.getD index default).length then
    (get_field_len_pfx m.iso_spec index).map fun w =>
      let v := (if 0 < w then fmtZeroPad buffer.length w else []) ++ buffer
      { m with fields := listUpd m.fields index fun f =>
          { f with new_payload := some v, exist := true } }
  else none

/-- Embeds `IsoMsg::get_field_raw`: writes the stored override or the source slice
into the head of `buffer` and returns the updated buffer with
`(total_len, field_len_prefix)`; `Except.error` carries the Rust `&str`. -/
def get_field_raw (m : IsoMsg) (index : Nat) (buffer : List Nat) :
    Option (Except String (List Nat × Nat × Nat)) :=
  if index < m.fields.length then
    let field := m.fields.getD index default
    if field.exist = false then some (.error "Field not set")
    else
      match field.new_payload with
      | some v =>
        if v.length ≤ buffer.length then
          (get_field_len_pfx m.iso_spec index).map fun w =>
            .ok (listWrite buffer 0 v, v.length, w)
        else some (.error "Input buffer is smaller than field value")
      | none =>
        if field.len = 0 then some (.error "Field not set")
        else if field.len ≤ buffer.length ∧ field.len + field.index ≤ m.payload.length then
          (get_field_len_pfx m.iso_spec index).map fun w =>
            .ok (listWrite buffer 0 ((m.payload.drop field.index).take field.len), field.len, w)
        else some (.error "Input buffer is smaller than field value")
  else none

/-- Embeds `IsoMsg::get_field`: strips the length prefix in place and returns the
logical byte count. -/
def get_field (m : IsoMsg) (index : Nat) (buffer : List Nat) :
    Option (Except String (List Nat × Nat)) :=
  match get_field_raw m index buffer with
  | none => none
  | some (.error e) => some (.error e)
  | some (.ok (buf, len, w)) =>
    if 0 < w then
      if w ≤ len ∧ len ≤ buf.length then
        some (.ok (listWrite buf 0 ((buf.drop w).take (len - w)), len - w))
      else none
    else some (.ok (buf, len))

/-- Embeds `IsoMsg::convert_u32_be` (asserts a 4-byte slice). -/
def convert_u32_be (a : List Nat) : Option Nat :=
  match a with
  | [b0, b1, b2, b3] => some (b0 * 2 ^ 24 + b1 * 2 ^ 16 + b2 * 2 ^ 8 + b3)
  | _ => none

/-- Uppercase hex digit, as in `format!("{:08X}", _)`. -/
def hexDigitAscii (d : Nat) : Nat := if d < 10 then 48 + d else 55 + d

/-- Rust `format!("{:08X}", n)` for `n < 2^32`. -/
def hex8 (n : Nat) : List Nat :=
  (List.range 8).map fun k => hexDigitAscii (n / 16 ^ (7 - k) % 16)

/-- The `while byte_index < bytes.len()` loop of `to_byte_array`: each
4-byte group becomes 8 uppercase hex characters (our inputs are always 16
bytes; a non-multiple of 4 would panic in Rust and cannot arise here). -/
def bytesToHexGroups : List Nat → List Nat
  | b0 :: b1 :: b2 :: b3 :: rest =>
    hex8 (b0 * 2 ^ 24 + b1 * 2 ^ 16 + b2 * 2 ^ 8 + b3) ++ bytesToHexGroups rest
  | _ => []

/-- The bitmap-string builder of `to_byte_array`: iterate
`bit_arrays.iter_mut().enumerate().take(bit_array_index)`, forcing bit 0 of
the first array whenever it holds more than 64 bits, and emit hex. -/
def buildBitmapGo : List (List Bool) → Nat → Nat → List Nat
  | [], _, _ => []
  | ba :: rest, cnt, i =>
    if i < cnt then
      let ba2 := if i = 0 ∧ 64 < ba.length then ba.set 0 true else ba
      bytesToHexGroups (bitsToBytes ba2) ++ buildBitmapGo rest cnt (i + 1)
    else []

def buildBitmapStr (bas : List (List Bool)) (cnt : Nat) : List Nat :=
  buildBitmapGo bas cnt 0

/-- State threaded by the emit loop of `to_byte_array`: the output buffer,
`buffer_index`, `bitmap_found`, `bitmap_field_index`, `bit_index`,
`bit_arrays`, `bit_array_index`. -/
structure TbaState where
  buf : List Nat
  bi : Nat
  found : Bool
  bfi : Nat
  bitIdx : Nat
  bas : List (List Bool)
  bai : Nat

/-- One iteration of the `for index in 0..self.fields.len()` loop of
`IsoMsg::to_byte_array`. -/
def tba_step (m : IsoMsg) (st : TbaState) (index : Nat) : Option TbaState :=
  let st := { st with bai := index / 128 }
  (if st.found = false then
    (m.iso_spec.get? index).map fun f => isBmpChar f
   else some false).bind fun isBm =>
  if isBm then
    let st := { st with bfi := index, found := true, bitIdx := st.bi }
    (sliceFrom st.buf st.bi).bind fun sub =>
    (get_field_raw m index sub).map fun res =>
      match res with
      | .error _ => st
      | .ok (sub2, flen, _) =>
        { st with buf := st.buf.take st.bi ++ sub2, bi := st.bi + flen }
  else
    (sliceFrom st.buf st.bi).bind fun sub =>
    (get_field_raw m index sub).bind fun res =>
      match res with
      | .error _ => some st
      | .ok (sub2, flen, _) =>
        (if st.found then
          match st.bas.get? st.bai with
          | none => none
          | some ba =>
            if index - st.bfi < 128 then
              some { st with bas := st.bas.set st.bai (ba.set (index - st.bfi) true) }
            else none
         else some st).map fun st2 =>
        { st2 with buf := st2.buf.take st2.bi ++ sub2, bi := st2.bi + flen }

/-- The emit loop over the index list `[0, ..., fields.len() - 1]`. -/
def tba_loop (m : IsoMsg) : List Nat → TbaState → Option TbaState
  | [], st => some st
  | index :: rest, st => (tba_step m st index).bind (tba_loop m rest)

/-- Embeds `IsoMsg::to_byte_array`: runs the emit loop, then overwrites the bitmap
region with the rebuilt hex string; returns the final buffer and
`buffer_index`.  `none` models a panic (including the `usize` underflow of
`get_handle().len() - 1` on an empty spec). -/
def to_byte_array (m : IsoMsg) (buffer : List Nat) : Option (List Nat × Nat) :=
  if m.iso_spec.length = 0 then none
  else
    let num_iteration := (m.iso_spec.length - 1 + 63) / 128
    let st0 : TbaState :=
      { buf := buffer, bi := 0, found := false, bfi := 0, bitIdx := 0,
        bas := List.replicate num_iteration bitarray_false, bai := 0 }
    (tba_loop m (List.range m.fields.length) st0).bind fun st =>
      let bm := buildBitmapStr st.bas st.bai
      if st.bitIdx + bm.length ≤ st.buf.length then
        some (listWrite st.buf st.bitIdx bm, st.bi)
      else none

/-! ### The repository's own `AuthSpecs` field table and test vector
(from the `tests` module of `src/iso_msg.rs`) -/

/-- Shorthand for `IsoField::new`. -/
def F (label : String) (c : FieldCharType) (n : Nat) (s : FieldSizeType) : IsoField :=
  { label := label, char_type := c, length := n, size_type := s }

/-- Embeds `Util::define_auth_specs()` from the repository's tests: the 129-entry
ISO 8583 authorization field table. -/
def authSpecs : List IsoField := [
  F "Message Type Indicator" .Iso8583_ns 4 .Fixed,
  F "Bitmap" .Iso8583_bmps 16 .BitMap,
  F "Primary Account Number" .Iso8583_ns 19 .LlVar,
  F "Processing Code" .Iso8583_ns 6 .Fixed,
  F "Amount, Txn" .Iso8583_ns 12 .Fixed,
  F "Amount, Reconciliation" .Iso8583_ns 12 .Fixed,
  F "Amount, Cardholder Billing" .Iso8583_ns 12 .Fixed,
  F "Date and Time, Transmission" .Iso8583_ns 10 .Fixed,
  F "Amount, Cardholder Billing Fee" .Iso8583_ns 8 .Fixed,
  F "Conversion Rate, Reconciliation" .Iso8583_ns 8 .Fixed,
  F "Conversion Rate, Cardholder Billing" .Iso8583_ns 8 .Fixed,
  F "Systems Trace Audit Number" .Iso8583_ns 6 .Fixed,
  F "Date and Time, Local Txn" .Iso8583_ns 6 .Fixed,
  F "Date, Effective" .Iso8583_ns 4 .Fixed,
  F "Date, Expiration" .Iso8583_ns 4 .Fixed,
  F "Date, Settlement" .Iso8583_ns 4 .Fixed,
  F "Date, Conversion" .Iso8583_ns 4 .Fixed,
  F "Date, Capture" .Iso8583_ns 4 .Fixed,
  F "Merchant Type" .Iso8583_ns 4 .Fixed,
  F "Country Code, Acquiring Inst" .Iso8583_ns 3 .Fixed,
  F "Country Code, Primary Account Number" .Iso8583_ns 3 .Fixed,
  F "Country Code, Forwarding Inst" .Iso8583_ns 3 .Fixed,
  F "Point of Service Data Code" .Iso8583_ns 3 .Fixed,
  F "Card Sequence Number" .Iso8583_ns 3 .Fixed,
  F "Function Code" .Iso8583_ns 3 .Fixed,
  F "Message Reason Code" .Iso8583_ns 2 .Fixed,
  F "Card Acceptor Business Code" .Iso8583_ns 2 .Fixed,
  F "Approval Code Length" .Iso8583_ns 1 .Fixed,
  F "Date, Reconciliation" .Iso8583_ns 9 .Fixed,
  F "Reconciliation Indicator" .Iso8583_ns 9 .Fixed,
  F "Amounts, Original" .Iso8583_ns 24 .Fixed,
  F "Acquirer Reference Data" .Iso8583_ans 99 .LlVar,
  F " Acquirer Inst Id Code" .Iso8583_ns 11 .LlVar,
  F "Forwarding Inst Id Code" .Iso8583_ns 11 .LlVar,
  F "Primary Account Number, Extended" .Iso8583_ns 28 .LlVar,
  F "Track 2 Data" .Iso8583_z 37 .LlVar,
  F "Track 3 Data" .Iso8583_z 104 .LllVar,
  F "Retrieval Reference Number" .Iso8583_anp 12 .Fixed,
  F "Approval Code" .Iso8583_anp 6 .Fixed,
  F "Action Code" .Iso8583_ns 2 .Fixed,
  F "Service Code" .Iso8583_ns 3 .Fixed,
  F "Card Acceptor Terminal Id" .Iso8583_ans 8 .Fixed,
  F "Card Acceptor Id Code" .Iso8583_ans 15 .Fixed,
  F "Card Acceptor Name/Location" .Iso8583_ans 40 .Fixed,
  F "dditional Response Data" .Iso8583_ans 99 .LlVar,
  F "Track 1 Data" .Iso8583_ans 76 .LlVar,
  F "Amounts, Fees" .Iso8583_ans 204 .LllVar,
  F "Additional Data - National" .Iso8583_ans 999 .LllVar,
  F "Additional Data - Private" .Iso8583_ans 999 .LllVar,
  F "Currency Code, Txn" .Iso8583_an 3 .Fixed,
  F "Currency Code, Reconciliation" .Iso8583_an 3 .Fixed,
  F "Currency Code, Cardholder Billing" .Iso8583_an 3 .Fixed,
  F "Personal Id Number (PIN) Data" .Iso8583_ans 16 .Fixed,
  F "Security Related Control Information" .Iso8583_ns 16 .Fixed,
  F "Amounts, Additional" .Iso8583_ans 120 .LllVar,
  F "IC Card System Related Data" .Iso8583_ans 999 .LllVar,
  F "Original Data Elements" .Iso8583_ans 35 .LlVar,
  F "Authorization Life Cycle Code" .Iso8583_ans 999 .LllVar,
  F "Authorizing Agent Inst Id Cod" .Iso8583_ans 999 .LllVar,
  F "Transport Data" .Iso8583_ans 999 .LllVar,
  F "Reserved for National use" .Iso8583_ans 999 .LllVar,
  F "Reserved for National use" .Iso8583_ans 999 .LllVar,
  F "Reserved for Private use" .Iso8583_ans 999 .LllVar,
  F "Reserved for Private use" .Iso8583_ans 999 .LllVar,
  F "Message Authentication Code Field" .Iso8583_b 8 .Fixed,
  F "Reserved for ISO use" .Iso8583_b 8 .Fixed,
  F "Reconciliation code , Original Fees" .Iso8583_ans 1 .Fixed,
  F "Extended Payment Data" .Iso8583_ns 2 .Fixed,
  F "Country Code, Receiving Inst" .Iso8583_ns 3 .Fixed,
  F "Country Code, Settlement Inst" .Iso8583_ns 3 .Fixed,
  F "Network Management Information Code" .Iso8583_ns 3 .Fixed,
  F "Message Number" .Iso8583_ns 6 .Fixed,
  F "Data Record" .Iso8583_ans 999 .LllVar,
  F "Date, Action" .Iso8583_ns 6 .Fixed,
  F "Credits, Number" .Iso8583_ns 10 .Fixed,
  F "Credits, Reversal Number" .Iso8583_ns 10 .Fixed,
  F "Debits, Number" .Iso8583_ns 10 .Fixed,
  F "Debits, Reversal Number" .Iso8583_ns 10 .Fixed,
  F "Transfer, Number" .Iso8583_ns 10 .Fixed,
  F "Transfer, Reversal Number" .Iso8583_ns 10 .Fixed,
  F "Inquiries, Number" .Iso8583_ns 10 .Fixed,
  F "Authorizations, Number" .Iso8583_ns 10 .Fixed,
  F "Inquiries, Reversal Number" .Iso8583_ns 10 .Fixed,
  F "Payments, Number" .Iso8583_ns 10 .Fixed,
  F "Payments, Reversal Number" .Iso8583_ns 10 .Fixed,
  F "Fee Collections, Number" .Iso8583_ns 10 .Fixed,
  F "Credits, Amount" .Iso8583_ns 16 .Fixed,
  F "Credits, Reversal Amount" .Iso8583_ns 16 .Fixed,
  F "Debits, Amount" .Iso8583_ns 16 .Fixed,
  F "Debits, Reversal Amount" .Iso8583_ns 16 .Fixed,
  F "Authorizations, Reversal Number" .Iso8583_ns 42 .Fixed,
  F "Country Code, Txn Destination Inst" .Iso8583_ns 3 .Fixed,
  F "Country Code, Txn Originator Inst" .Iso8583_ns 3 .Fixed,
  F "Txn Destination Inst Id Code" .Iso8583_ns 11 .LlVar,
  F "Txn Originator Inst Id Code" .Iso8583_ns 11 .LlVar,
  F "Card Issuer Reference Data" .Iso8583_ans 42 .Fixed,
  F "Key Management Data" .Iso8583_b 999 .LllVar,
  F "Amount, Net Reconciliation" .Iso8583_xn 17 .Fixed,
  F "Payee" .Iso8583_ans 25 .Fixed,
  F "Settlement Inst Id Code" .Iso8583_an 11 .LlVar,
  F "Receiving Inst Id Code" .Iso8583_ns 11 .LlVar,
  F "File Name" .Iso8583_ans 17 .LlVar,
  F "Account Id 1" .Iso8583_ans 28 .LlVar,
  F "Account Id 2" .Iso8583_ans 28 .LlVar,
  F "Txn Description" .Iso8583_ans 255 .LllVar,
  F "Credits, Chargeback Amount" .Iso8583_ns 16 .Fixed,
  F "Debits, Chargeback Amount" .Iso8583_ns 16 .Fixed,
  F "Credits, Chargeback Number" .Iso8583_ns 10 .Fixed,
  F "Debits, Chargeback Number" .Iso8583_ns 10 .Fixed,
  F "Credits, Fee Amounts" .Iso8583_ans 84 .LlVar,
  F "Debits, Fee Amounts" .Iso8583_ans 84 .LlVar,
  F "Reserved for ISO use" .Iso8583_ns 12 .Fixed,
  F "Reserved for ISO use" .Iso8583_ans 999 .LllVar,
  F "Reserved for ISO use" .Iso8583_ans 999 .LllVar,
  F "Reserved for ISO use" .Iso8583_ans 999 .LllVar,
  F "Reserved for ISO use" .Iso8583_ans 999 .LllVar,
  F "Reserved for National use" .Iso8583_ans 999 .LllVar,
  F "Reserved for National use" .Iso8583_ans 999 .LllVar,
  F "Reserved for National use" .Iso8583_ans 999 .LllVar,
  F "Reserved for National use" .Iso8583_ans 999 .LllVar,
  F "Reserved for National use" .Iso8583_ans 999 .LllVar,
  F "Reserved for National use" .Iso8583_ans 999 .LllVar,
  F "Reserved for National use" .Iso8583_ans 999 .LllVar,
  F "Reserved for Private use" .Iso8583_ans 999 .LllVar,
  F "Reserved for Private use" .Iso8583_ans 999 .LllVar,
  F "Reserved for Private use" .Iso8583_ans 999 .LllVar,
  F "Reserved for Private use" .Iso8583_ans 999 .LllVar,
  F "Reserved for Private use" .Iso8583_ans 999 .LllVar,
  F "Message Authentication Code Field" .Iso8583_b 8 .Fixed]

/-- The ASCII authorization payload used by `init_iso_msg_test`,
`iso_to_byte_array_test` and `iso_auth_req_test`. -/
def authPayload : List Nat :=
  ("0100F2246481087088360000000000000004016123456717929985100300000000000013112042128251178162210581284001059006419310712815007743555555555555888Test Merchant         Richmond1    51USA011          N8402001010000000000014510002329467890120100  00054002140000000000012312340001080000000020120040001N 989").toList.map Char.toNat

/-- The length-prefix width determined by a size discipline alone (the value
`get_field_length_prefix` returns once the spec lookup succeeded). -/
def pfxW : FieldSizeType → Nat
  | .LlVar => 2
  | .LllVar => 3
  | .LlllVar => 4
  | _ => 0

/-- The prefix width of the variable-length disciplines, `none` for the
disciplines that carry no prefix. -/
def prefWidthOf : FieldSizeType → Option Nat
  | .LlVar => some 2
  | .LllVar => some 3
  | .LlllVar => some 4
  | _ => none

/-- The 128 presence bits the parser actually uses: the 16 octets at
absolute offsets 4..20 of the input buffer. -/
def bmpBits (input : List Nat) : List Bool :=
  bitarray_from_bytes ((input.drop 4).take 16)

/-- Index of the first bitmap-kind position of a spec. -/
def firstBmpIdx : List IsoField → Option Nat
  | [] => none
  | f :: rest => if isBmpChar f then some 0 else (firstBmpIdx rest).map (· + 1)

/-- Value of an ASCII hexadecimal digit (uppercase letters). -/
def hexCharVal (c : Nat) : Nat := if c < 58 then c - 48 else c - 55

/-- Decode an ASCII-hex bitmap string back to its bits, one nibble per
character, most significant bit first (the decoding described by spec §4.1). -/
def hexToBits (s : List Nat) : List Bool :=
  s.flatMap fun c => (List.range 4).map fun k => Nat.testBit (hexCharVal c) (3 - k)

/-! ### Concrete instances used to settle the claims -/

/-- Result count of a `get_field` call, when it succeeded. -/
def getCount (o : Option (Except String (List Nat × Nat))) : Option Nat :=
  match o with
  | some (.ok (_, n)) => some n
  | _ => none

/-- Buffer of a successful `get_field` call, truncated to the returned count. -/
def getBytes (o : Option (Except String (List Nat × Nat))) : Option (List Nat) :=
  match o with
  | some (.ok (buf, n)) => some (buf.take n)
  | _ => none

/-- A three-position spec with a 6-byte MTI and a binary bitmap: the bitmap
is reached with the cursor at 6, not 4. -/
def spec2 : List IsoField :=
  [F "mti" .Iso8583_ns 6 .Fixed,
   F "bitmap" .Iso8583_bmp 16 .BitMap,
   F "de2" .Iso8583_ns 1 .Fixed]

/-- Twenty bytes whose byte 4 is 0x40 (bit 1 set) while byte 6 is 0x30
(bit 1 clear): decoding at absolute offset 4 and decoding at the cursor 6
disagree about position 2. -/
def input2 : List Nat := [48, 48, 48, 48, 64, 48] ++ List.replicate 14 48

/-- An all-zero 16-byte bitmap after a four-byte MTI: under `authSpecs`
only positions 0 and 1 are present. -/
def input3 : List Nat := [48, 48, 48, 48] ++ List.replicate 16 0

/-- The parsed message for `input3` under the repository's own field table. -/
def msg3 : IsoMsg :=
  { payload := input3, iso_spec := authSpecs,
    fields := (from_byte_array authSpecs input3).getD [] }

/-- A 64-byte output buffer of ASCII zeros. -/
def buf64 : List Nat := List.replicate 64 48

/-- MTI, ASCII-hex bitmap, and one LLVAR field of declared maximum 19. -/
def spec4w : List IsoField :=
  [F "mti" .Iso8583_ns 4 .Fixed,
   F "bitmap" .Iso8583_bmps 16 .BitMap,
   F "de2" .Iso8583_ns 19 .LlVar]

/-- Bit 1 set (byte 4 = 0x40) and ASCII digits `"05"` at offsets 16..18,
where the parser reads position 2's length prefix: parsing succeeds. -/
def input4w : List Nat :=
  [48, 49, 48, 48, 64] ++ List.replicate 11 0 ++ [48, 53] ++ [55, 55, 55, 55, 55]

/-- Same shape but with `"AB"` (non-digits) at offsets 16..18, the bytes the
parser reads as position 2's LLVAR length prefix. -/
def input4c : List Nat :=
  [48, 49, 48, 48, 64] ++ List.replicate 11 0 ++ [65, 66] ++ [48, 48, 48]

/-- MTI, ASCII-hex bitmap, an LLVAR field whose declared maximum length 150
needs three decimal digits, and a short fixed field. -/
def specS : List IsoField :=
  [F "mti" .Iso8583_ns 4 .Fixed,
   F "bitmap" .Iso8583_bmps 16 .BitMap,
   F "de2" .Iso8583_ns 150 .LlVar,
   F "de3" .Iso8583_ns 6 .Fixed]

/-- MTI `"0100"` followed by an all-zero bitmap region. -/
def inputS : List Nat := [48, 49, 48, 48] ++ List.replicate 16 0

/-- The parsed message for `inputS` under `specS`: positions 0 and 1
present, positions 2 and 3 absent. -/
def msgS : IsoMsg :=
  { payload := inputS, iso_spec := specS,
    fields := (from_byte_array specS inputS).getD [] }

/-- One hundred payload bytes `'A'`: allowed by `specS[2].length = 150`, but
its decimal length needs three digits while the LLVAR prefix holds two. -/
def pay100 : List Nat := List.replicate 100 65

/-- A destination buffer exactly as large as the stored override
(3-digit overflowed prefix + 100 payload bytes). -/
def dst103 : List Nat := List.replicate 103 48

/-- Five payload bytes `'5'`. -/
def pay5 : List Nat := [53, 53, 53, 53, 53]

def dst5 : List Nat := List.replicate 5 48

def dst7 : List Nat := List.replicate 7 48

def pay7 : List Nat := List.replicate 7 65

/-! ### Helper lemmas about the list primitives -/

theorem listUpd_length {α : Type} (l : List α) (i : Nat) (g : α → α) :
    (listUpd l i g).length = l.length := by
  induction l generalizing i with
  | nil => rfl
  | cons x xs ih =>
    cases i with
    | zero => rfl
    | succ j => simp [listUpd, ih]

theorem listUpd_eq_take_drop {α : Type} (d : α) (l : List α) (i : Nat) (g : α → α)
    (h : i < l.length) :
    listUpd l i g = l.take i ++ g (l.getD i d) :: l.drop (i + 1) := by
  induction l generalizing i with
  | nil => simp at h
  | cons x xs ih =>
    cases i with
    | zero => simp [listUpd]
    | succ j =>
      simp only [List.length_cons, Nat.succ_lt_succ_iff] at h
      simp [listUpd, ih j h]

theorem getD_append_left {α : Type} (l1 l2 : List α) (j : Nat) (d : α)
    (h : j < l1.length) : (l1 ++ l2).getD j d = l1.getD j d := by
  induction l1 generalizing j with
  | nil => simp at h
  | cons x xs ih =>
    cases j with
    | zero => rfl
    | succ n =>
      simp only [List.length_cons, Nat.succ_lt_succ_iff] at h
      simpa using ih n h

theorem getD_append_right {α : Type} (l1 l2 : List α) (j : Nat) (d : α) :
    (l1 ++ l2).getD (l1.length + j) d = l2.getD j d := by
  induction l1 with
  | nil => simp
  | cons x xs ih => simpa [Nat.succ_add] using ih

theorem listUpd_getD_self {α : Type} (d : α) (l : List α) (i : Nat) (g : α → α)
    (h : i < l.length) : (listUpd l i g).getD i d = g (l.getD i d) := by
  rw [listUpd_eq_take_drop d l i g h]
  have hlen : (l.take i).length = i := List.length_take_of_le (Nat.le_of_lt h)
  have := getD_append_right (l.take i) (g (l.getD i d) :: l.drop (i + 1)) 0 d
  simpa [hlen] using this

theorem listUpd_getD_ne {α : Type} (d : α) (l : List α) (i j : Nat) (g : α → α)
    (hne : j ≠ i) : (listUpd l i g).getD j d = l.getD j d := by
  induction l generalizing i j with
  | nil => rfl
  | cons x xs ih =>
    cases i with
    | zero =>
      cases j with
      | zero => exact absurd rfl hne
      | succ n => rfl
    | succ k =>
      cases j with
      | zero => rfl
      | succ n =>
        have : n ≠ k := fun he => hne (by simp [he])
        simpa [listUpd] using ih k n this

theorem getD_eq_get {α : Type} (d : α) (l : List α) (i : Nat) (h : i < l.length) :
    l.get ⟨i, h⟩ = l.getD i d := by
  simp [List.getD_eq_getElem?_getD, List.getElem?_eq_getElem h]

/-- Spec lookup of the prefix width, resolved through `pfxW`. -/
theorem get_field_len_pfx_eq (spec : List IsoField) (i : Nat) (h : i < spec.length) :
    get_field_len_pfx spec i = some (pfxW (spec.getD i default).size_type) := by
  simp only [get_field_len_pfx, List.get?_eq_getElem?, List.getElem?_eq_getElem h,
    Option.map_some']
  have : spec.getD i default = spec[i] := by
    simp [List.getD_eq_getElem?_getD, List.getElem?_eq_getElem h]
  rw [this]
  cases spec[i].size_type <;> rfl

/-! ### C5: oversized payloads at set_field -/

/-- A `set_field` whose payload exceeds the declared maximum hits the
`assert!(buffer.len() <= ...)` and panics: no error value is produced and
no slot is touched (the asserts precede every mutation). -/
theorem c5_set_field_oversize_panics (m : IsoMsg) (i : Nat) (p : List Nat)
    (hi : i < m.fields.length) (his : i < m.iso_spec.length)
    (hlen : (m.iso_spec.getD i default).length < p.length) :
    set_field m i p = none := by
  have hno : ¬(i < m.fields.length ∧ i < m.iso_spec.length ∧
      p.length ≤ (m.iso_spec.getD i default).length) := by
    rintro ⟨_, _, h3⟩
    exact absurd h3 (Nat.not_le_of_lt hlen)
  simp only [set_field]
  exact if_neg hno

/-- Witness: on the parsed message `msgS`, position 3 (fixed, max length 6)
rejects a 7-byte payload by panicking. -/
theorem c5_set_field_oversize_panics_witness : set_field msgS 3 pay7 = none :=
  c5_set_field_oversize_panics msgS 3 pay7 (by decide) (by decide) (by decide)

/-- Counterexample to C5 as stated: the oversized `set_field` does not
return a `PayloadTooLong` error value; the call has no result at all
(a Rust `assert!` panic, modelled as `none`). -/
theorem c5_counterexample :
    set_field msgS 3 pay7 = none ∧ pay7.length = 7 ∧
      (specS.getD 3 default).length = 6 := by
  refine ⟨?_, by decide, by decide⟩
  exact c5_set_field_oversize_panics msgS 3 pay7 (by decide) (by decide) (by decide)

/-! ### C10: remove_field frame conditions -/

/-- In-range `remove_field` always succeeds (the Rust function's only
return value is `Ok(())`, even when the slot is already absent) and its
whole effect is clearing slot `i`'s `exist` flag: the slot's offset,
length and stored override, and every other slot, are unchanged. -/
theorem c10_remove_field_frame (m : IsoMsg) (i : Nat)
    (hi : i < m.fields.length) (his : i < m.iso_spec.length) :
    remove_field m i = some
      { payload := m.payload, iso_spec := m.iso_spec,
        fields := m.fields.take i ++
          { m.fields.getD i default with exist := false } :: m.fields.drop (i + 1) } := by
  simp only [remove_field, if_pos (And.intro hi his)]
  rw [listUpd_eq_take_drop default m.fields i _ hi]

/-- Witness: removing the already-absent position 2 of `msgS` returns
successfully and only clears its `exist` flag. -/
theorem c10_remove_field_frame_witness :
    remove_field msgS 2 = some
      { payload := msgS.payload, iso_spec := msgS.iso_spec,
        fields := msgS.fields.take 2 ++
          { msgS.fields.getD 2 default with exist := false } :: msgS.fields.drop 3 } :=
  c10_remove_field_frame msgS 2 (by decide) (by decide)

/-! ### C7: remove then get -/

/-- A `get_field_raw` on a slot whose `exist` flag is clear answers the
field-not-set error. -/
theorem get_field_raw_of_not_exist (m : IsoMsg) (i : Nat) (dst : List Nat)
    (hi : i < m.fields.length) (hex : (m.fields.getD i default).exist = false) :
    get_field_raw m i dst = some (.error "Field not set") := by
  simp only [get_field_raw]
  rw [if_pos hi, hex]
  simp

/-- After a successful `remove_field i`, any `get_field i` returns the
field-not-set error, for every destination buffer. -/
theorem c7_remove_then_get (m : IsoMsg) (i : Nat) (dst : List Nat) (m2 : IsoMsg)
    (hrm : remove_field m i = some m2) :
    get_field m2 i dst = some (.error "Field not set") := by
  simp only [remove_field] at hrm
  by_cases hc : i < m.fields.length ∧ i < m.iso_spec.length
  · rw [if_pos hc] at hrm
    cases hrm
    have hlen : i < (listUpd m.fields i fun f => { f with exist := false }).length := by
      rw [listUpd_length]; exact hc.1
    have hex : ((listUpd m.fields i fun f => { f with exist := false }).getD i default).exist =
        false := by
      rw [listUpd_getD_self default _ i _ hc.1]
    rw [get_field, get_field_raw_of_not_exist _ i dst hlen hex]
  · rw [if_neg hc] at hrm
    cases hrm

/-- The value of `remove_field msgS 0`, written out. -/
def msgRm0 : IsoMsg :=
  { payload := inputS, iso_spec := specS,
    fields := [{ exist := false, index := 0, len := 4, new_payload := none },
      { exist := true, index := 4, len := 12, new_payload := none },
      { exist := false, index := 0, len := 0, new_payload := none },
      { exist := false, index := 0, len := 0, new_payload := none }] }

/-- Witness: remove position 0 of `msgS`, then get it. -/
theorem c7_remove_then_get_witness :
    get_field msgRm0 0 dst7 = some (.error "Field not set") :=
  c7_remove_then_get msgS 0 dst7 msgRm0 (by decide)

/-! ### Lemmas for the set/get data path -/

theorem take_append_of_le {α : Type} :
    ∀ (l1 l2 : List α) (n : Nat), n ≤ l1.length → (l1 ++ l2).take n = l1.take n
  | _, _, 0, _ => by simp
  | [], _, n + 1, h => by simp at h
  | x :: xs, l2, n + 1, h => by
    simp only [List.cons_append, List.take_succ_cons]
    rw [take_append_of_le xs l2 n (by simpa using h)]

theorem drop_append_of_le {α : Type} :
    ∀ (l1 l2 : List α) (n : Nat), n ≤ l1.length → (l1 ++ l2).drop n = l1.drop n ++ l2
  | _, _, 0, _ => by simp
  | [], _, n + 1, h => by simp at h
  | x :: xs, l2, n + 1, h => by
    simp only [List.cons_append, List.drop_succ_cons]
    exact drop_append_of_le xs l2 n (by simpa using h)

theorem take_append_self {α : Type} (l1 l2 : List α) : (l1 ++ l2).take l1.length = l1 := by
  rw [take_append_of_le l1 l2 l1.length (Nat.le_refl _), List.take_length]

theorem drop_append_self {α : Type} (l1 l2 : List α) : (l1 ++ l2).drop l1.length = l2 := by
  rw [drop_append_of_le l1 l2 l1.length (Nat.le_refl _), List.drop_length, List.nil_append]

theorem listWrite_zero (dst src : List Nat) : listWrite dst 0 src = src ++ dst.drop src.length := by
  simp [listWrite]

theorem listWrite_length (dst src : List Nat) (p : Nat) (h : p + src.length ≤ dst.length) :
    (listWrite dst p src).length = dst.length := by
  simp only [listWrite, List.length_append, List.length_take, List.length_drop]
  omega

theorem natDecDigitsAux_length_le :
    ∀ (fuel n w : Nat), n < fuel → n < 10 ^ w → 1 ≤ w →
      (natDecDigitsAux fuel n).length ≤ w := by
  intro fuel
  induction fuel with
  | zero => intro n w h; omega
  | succ fl ih =>
    intro n w hfl hw h1
    by_cases hs : n < 10
    · simpa [natDecDigitsAux, hs] using h1
    · have hw2 : 2 ≤ w := by
        by_contra hlt
        push_neg at hlt
        have hw1 : w = 1 := by omega
        rw [hw1, pow_one] at hw
        omega
      have hdiv : n / 10 < 10 ^ (w - 1) := by
        have h10 : (10 : Nat) ^ w = 10 * 10 ^ (w - 1) := by
          conv_lhs => rw [show w = (w - 1) + 1 by omega]
          rw [Nat.pow_succ, Nat.mul_comm]
        exact Nat.div_lt_of_lt_mul (by rw [← h10]; exact hw)
      have hfuel : n / 10 < fl := by
        have : n / 10 < n := Nat.div_lt_self (by omega) (by omega)
        omega
      have := ih (n / 10) (w - 1) hfuel hdiv (by omega)
      simp only [natDecDigitsAux, if_neg hs, List.length_append, List.length_cons,
        List.length_nil]
      omega

theorem fmtZeroPad_length (n w : Nat) (h1 : 1 ≤ w) (h2 : n < 10 ^ w) :
    (fmtZeroPad n w).length = w := by
  have hle : (natDecDigits n).length ≤ w :=
    natDecDigitsAux_length_le (n + 1) n w (Nat.lt_succ_self n) h2 h1
  simp only [fmtZeroPad, List.length_append, List.length_replicate]
  omega

/-- Raw read of a slot that carries an override which fits the buffer. -/
theorem get_field_raw_override (m : IsoMsg) (i : Nat) (dst v : List Nat) (w : Nat)
    (hi : i < m.fields.length)
    (hex : (m.fields.getD i default).exist = true)
    (hnp : (m.fields.getD i default).new_payload = some v)
    (hpfx : get_field_len_pfx m.iso_spec i = some w)
    (hfits : v.length ≤ dst.length) :
    get_field_raw m i dst = some (.ok (listWrite dst 0 v, v.length, w)) := by
  simp only [get_field_raw]
  rw [if_pos hi, hex, hnp]
  simp only [Bool.true_eq_false, if_neg (Bool.false_ne_true ∘ Eq.symm)]
  rw [if_pos hfits, hpfx]
  rfl

/-- Raw read of a slot that carries an override larger than the buffer. -/
theorem get_field_raw_override_small (m : IsoMsg) (i : Nat) (dst v : List Nat)
    (hi : i < m.fields.length)
    (hex : (m.fields.getD i default).exist = true)
    (hnp : (m.fields.getD i default).new_payload = some v)
    (hfits : dst.length < v.length) :
    get_field_raw m i dst = some (.error "Input buffer is smaller than field value") := by
  simp only [get_field_raw]
  rw [if_pos hi, hex, hnp]
  simp only [Bool.true_eq_false, if_neg (Bool.false_ne_true ∘ Eq.symm)]
  rw [if_neg (by omega : ¬ v.length ≤ dst.length)]
  simp

/-- Raw read of a present slot backed by the source buffer slice. -/
theorem get_field_raw_slice (m : IsoMsg) (i : Nat) (dst : List Nat) (w : Nat)
    (hi : i < m.fields.length)
    (hex : (m.fields.getD i default).exist = true)
    (hnp : (m.fields.getD i default).new_payload = none)
    (hpfx : get_field_len_pfx m.iso_spec i = some w)
    (hl0 : (m.fields.getD i default).len ≠ 0)
    (hfits : (m.fields.getD i default).len ≤ dst.length ∧
      (m.fields.getD i default).len + (m.fields.getD i default).index ≤ m.payload.length) :
    get_field_raw m i dst = some (.ok
      (listWrite dst 0 ((m.payload.drop (m.fields.getD i default).index).take
        (m.fields.getD i default).len),
       (m.fields.getD i default).len, w)) := by
  simp only [get_field_raw]
  rw [if_pos hi, hex, hnp]
  simp only [Bool.true_eq_false, if_neg (Bool.false_ne_true ∘ Eq.symm)]
  rw [if_neg hl0, if_pos hfits, hpfx]
  rfl

/-- Raw read of a present slice-backed slot that does not fit. -/
theorem get_field_raw_slice_small (m : IsoMsg) (i : Nat) (dst : List Nat)
    (hi : i < m.fields.length)
    (hex : (m.fields.getD i default).exist = true)
    (hnp : (m.fields.getD i default).new_payload = none)
    (hl0 : (m.fields.getD i default).len ≠ 0)
    (hnofit : ¬ ((m.fields.getD i default).len ≤ dst.length ∧
      (m.fields.getD i default).len + (m.fields.getD i default).index ≤ m.payload.length)) :
    get_field_raw m i dst = some (.error "Input buffer is smaller than field value") := by
  simp only [get_field_raw]
  rw [if_pos hi, hex, hnp]
  simp only [Bool.true_eq_false, if_neg (Bool.false_ne_true ∘ Eq.symm)]
  rw [if_neg hl0, if_neg hnofit]
  simp

/-- A `get_field` whose raw read returned an error passes it through. -/
theorem get_field_of_raw_err (m : IsoMsg) (i : Nat) (dst : List Nat) (e : String)
    (hraw : get_field_raw m i dst = some (.error e)) :
    get_field m i dst = some (.error e) := by
  simp only [get_field, hraw]

/-- A `get_field` over a prefix-free raw read returns its buffer verbatim. -/
theorem get_field_of_raw_ok_nopfx (m : IsoMsg) (i : Nat) (dst buf : List Nat) (len : Nat)
    (hraw : get_field_raw m i dst = some (.ok (buf, len, 0))) :
    get_field m i dst = some (.ok (buf, len)) := by
  simp only [get_field, hraw]
  simp

/-- A `get_field` over a prefixed raw read shuffles out the prefix bytes. -/
theorem get_field_of_raw_ok_pfx (m : IsoMsg) (i : Nat) (dst buf : List Nat) (len w : Nat)
    (hraw : get_field_raw m i dst = some (.ok (buf, len, w)))
    (hwpos : 0 < w) (hcond : w ≤ len ∧ len ≤ buf.length) :
    get_field m i dst =
      some (.ok (listWrite buf 0 ((buf.drop w).take (len - w)), len - w)) := by
  simp only [get_field, hraw]
  rw [if_pos hwpos, if_pos hcond]

/-! ### C6: get after set -/

/-- The message produced by a successful in-range `set_field`. -/
theorem set_field_eq (m : IsoMsg) (i : Nat) (p : List Nat) (w : Nat)
    (hi : i < m.fields.length) (his : i < m.iso_spec.length)
    (hlen : p.length ≤ (m.iso_spec.getD i default).length)
    (hpfx : get_field_len_pfx m.iso_spec i = some w) :
    set_field m i p = some
      { m with fields := listUpd m.fields i fun f =>
          { f with new_payload := some ((if 0 < w then fmtZeroPad p.length w else []) ++ p),
                   exist := true } } := by
  simp only [set_field, if_pos (And.intro hi (And.intro his hlen)), hpfx, Option.map_some']

/-- Whenever the payload both respects the declared maximum and fits its
length prefix (its decimal length needs at most the prefix's 2, 3 or 4
digits; no constraint for prefix-free fields), `set_field` then `get_field`
into a large-enough buffer writes back exactly the payload and returns its
length.  The extra digit-fit hypothesis is forced by `c6_counterexample`. -/
theorem c6_get_after_set (m : IsoMsg) (i : Nat) (p dst : List Nat)
    (hi : i < m.fields.length) (his : i < m.iso_spec.length)
    (hlen : p.length ≤ (m.iso_spec.getD i default).length)
    (hfit : pfxW (m.iso_spec.getD i default).size_type = 0 ∨
      p.length < 10 ^ pfxW (m.iso_spec.getD i default).size_type)
    (hdst : pfxW (m.iso_spec.getD i default).size_type + p.length ≤ dst.length) :
    getCount ((set_field m i p).bind fun m2 => get_field m2 i dst) = some p.length ∧
    getBytes ((set_field m i p).bind fun m2 => get_field m2 i dst) = some p := by
  have hpfx : get_field_len_pfx m.iso_spec i =
      some (pfxW (m.iso_spec.getD i default).size_type) := get_field_len_pfx_eq _ i his
  revert hpfx hfit hdst
  generalize pfxW (m.iso_spec.getD i default).size_type = w
  intro hfit hdst hpfx
  have hset := set_field_eq m i p w hi his hlen hpfx
  rw [hset, Option.some_bind]
  set m2 : IsoMsg :=
    { m with fields := listUpd m.fields i fun f =>
        { f with new_payload := some ((if 0 < w then fmtZeroPad p.length w else []) ++ p),
                 exist := true } } with hm2
  have hflen : i < m2.fields.length := by rw [hm2]; simpa [listUpd_length] using hi
  have hfget : m2.fields.getD i default =
      { m.fields.getD i default with
        new_payload := some ((if 0 < w then fmtZeroPad p.length w else []) ++ p),
        exist := true } := by
    rw [hm2]
    exact listUpd_getD_self default _ i _ hi
  rcases Nat.eq_zero_or_pos w with hw0 | hwpos
  · subst hw0
    rw [if_neg (Nat.lt_irrefl 0), List.nil_append] at hfget
    have hraw := get_field_raw_override m2 i dst p 0 hflen
      (by rw [hfget]) (by rw [hfget]) (by rw [hm2]; exact hpfx) (by omega)
    rw [get_field_of_raw_ok_nopfx m2 i dst _ _ hraw, listWrite_zero]
    exact ⟨rfl, by simp only [getBytes, take_append_self]⟩
  · have hfit2 : p.length < 10 ^ w := by
      rcases hfit with h | h
      · omega
      · exact h
    have hpadlen : (fmtZeroPad p.length w).length = w := fmtZeroPad_length _ _ hwpos hfit2
    rw [if_pos hwpos] at hfget
    have hvlen : (fmtZeroPad p.length w ++ p).length = w + p.length := by
      simp [hpadlen]
    have hraw := get_field_raw_override m2 i dst (fmtZeroPad p.length w ++ p) w hflen
      (by rw [hfget]) (by rw [hfget]) (by rw [hm2]; exact hpfx) (by omega)
    have hb1 : listWrite dst 0 (fmtZeroPad p.length w ++ p) =
        (fmtZeroPad p.length w ++ p) ++ dst.drop (fmtZeroPad p.length w ++ p).length :=
      listWrite_zero _ _
    have hb1len : (listWrite dst 0 (fmtZeroPad p.length w ++ p)).length = dst.length :=
      listWrite_length _ _ 0 (by omega)
    have hgf := get_field_of_raw_ok_pfx m2 i dst _ _ w hraw hwpos (by omega)
    rw [hgf]
    have hpd : (fmtZeroPad p.length w).drop w = [] :=
      List.drop_eq_nil_of_le (by omega)
    have hdropw : ((listWrite dst 0 (fmtZeroPad p.length w ++ p)).drop w) =
        p ++ dst.drop (fmtZeroPad p.length w ++ p).length := by
      rw [hb1, List.append_assoc,
        drop_append_of_le (fmtZeroPad p.length w) _ w (by omega), hpd, List.nil_append]
    have htake : (((listWrite dst 0 (fmtZeroPad p.length w ++ p)).drop w).take
        ((fmtZeroPad p.length w ++ p).length - w)) = p := by
      rw [hdropw, hvlen, show w + p.length - w = p.length by omega, take_append_self]
    rw [htake]
    constructor
    · simp only [getCount, hvlen]
      congr 1
      omega
    · simp only [getBytes, listWrite_zero, hvlen,
        show w + p.length - w = p.length by omega, take_append_self]

/-- Witness: set five bytes into the LLVAR position 2 of `msgS` and read
them back through a 7-byte destination buffer. -/
theorem c6_get_after_set_witness :
    getCount ((set_field msgS 2 pay5).bind fun m2 => get_field m2 2 dst7) = some pay5.length ∧
    getBytes ((set_field msgS 2 pay5).bind fun m2 => get_field m2 2 dst7) = some pay5 :=
  c6_get_after_set msgS 2 pay5 dst7 (by decide) (by decide) (by decide) (by decide)
    (by decide)

/-- Counterexample to C6 as stated: position 2 of `specS` declares maximum
length 150, so the 100-byte payload satisfies `len(p) ≤ max_length`, but
its three-digit decimal length overflows the two-digit LLVAR prefix and
`get_field` returns 101 bytes (a stray `'0'` followed by the payload), not
`len(p) = 100`. -/
theorem c6_counterexample :
    pay100.length = 100 ∧ (specS.getD 2 default).length = 150 ∧
    getCount ((set_field msgS 2 pay100).bind fun m2 => get_field m2 2 dst103) = some 101 ∧
    getBytes ((set_field msgS 2 pay100).bind fun m2 => get_field m2 2 dst103) =
      some (48 :: pay100) := by
  refine ⟨by decide, by decide, by decide, by decide⟩

/-! ### C8: get_field buffer threshold -/

/-- The value of `set_field msgS 2 pay5`, written out: slot 2 stores the
override `"05" ++ pay5` (7 bytes). -/
def msgV : IsoMsg :=
  { payload := inputS, iso_spec := specS,
    fields := [{ exist := true, index := 0, len := 4, new_payload := none },
      { exist := true, index := 4, len := 12, new_payload := none },
      { exist := true, index := 0, len := 0, new_payload := some [48, 53, 53, 53, 53, 53, 53] },
      { exist := false, index := 0, len := 0, new_payload := none }] }

/-- For a present position whose bytes are available (an override of length
`owl`, or a source slice of on-wire length `owl` that lies inside the
payload), `get_field` returns the buffer-too-small error exactly when the
destination holds fewer than `owl` bytes — the full on-wire count including
the length prefix, not the logical payload — and otherwise returns the
logical payload (the `owl - w` bytes after the `w` prefix bytes). -/
theorem c8_buffer_threshold (m : IsoMsg) (i : Nat) (dst src : List Nat) (owl : Nat)
    (hi : i < m.fields.length) (his : i < m.iso_spec.length)
    (hex : (m.fields.getD i default).exist = true)
    (hcase : ((m.fields.getD i default).new_payload = some src ∧ owl = src.length) ∨
      ((m.fields.getD i default).new_payload = none ∧
       owl = (m.fields.getD i default).len ∧ 0 < owl ∧
       owl + (m.fields.getD i default).index ≤ m.payload.length ∧
       src = (m.payload.drop (m.fields.getD i default).index).take owl))
    (hwo : pfxW (m.iso_spec.getD i default).size_type ≤ owl) :
    (dst.length < owl →
      get_field m i dst = some (.error "Input buffer is smaller than field value")) ∧
    (owl ≤ dst.length →
      getCount (get_field m i dst) =
        some (owl - pfxW (m.iso_spec.getD i default).size_type) ∧
      getBytes (get_field m i dst) =
        some (src.drop (pfxW (m.iso_spec.getD i default).size_type))) := by
  have hpfx : get_field_len_pfx m.iso_spec i =
      some (pfxW (m.iso_spec.getD i default).size_type) := get_field_len_pfx_eq _ i his
  revert hpfx hwo
  generalize pfxW (m.iso_spec.getD i default).size_type = w
  intro hwo hpfx
  have hsrclen : src.length = owl := by
    rcases hcase with ⟨_, h⟩ | ⟨_, howl, _, hav, hsrc⟩
    · omega
    · rw [hsrc]
      simp only [List.length_take, List.length_drop]
      omega
  constructor
  · intro hsmall
    have herr : get_field_raw m i dst =
        some (.error "Input buffer is smaller than field value") := by
      rcases hcase with ⟨hnp, h⟩ | ⟨hnp, howl, h0, hav, hsrc⟩
      · exact get_field_raw_override_small m i dst src hi hex hnp (by omega)
      · exact get_field_raw_slice_small m i dst hi hex hnp (by omega)
          (by rintro ⟨h1, _⟩; omega)
    exact get_field_of_raw_err m i dst _ herr
  · intro hfits
    have hraw : get_field_raw m i dst = some (.ok (listWrite dst 0 src, owl, w)) := by
      rcases hcase with ⟨hnp, h⟩ | ⟨hnp, howl, h0, hav, hsrc⟩
      · rw [get_field_raw_override m i dst src w hi hex hnp hpfx (by omega), h]
      · rw [get_field_raw_slice m i dst w hi hex hnp hpfx (by omega) (by omega)]
        rw [← howl, ← hsrc]
    have hb1 : listWrite dst 0 src = src ++ dst.drop src.length := listWrite_zero dst src
    have hb1len : (listWrite dst 0 src).length = dst.length :=
      listWrite_length dst src 0 (by omega)
    rcases Nat.eq_zero_or_pos w with hw0 | hwpos
    · subst hw0
      rw [get_field_of_raw_ok_nopfx m i dst _ _ hraw]
      constructor
      · rfl
      · simp only [getBytes, hb1, List.drop_zero, Nat.sub_zero, ← hsrclen, take_append_self]
    · have hgf := get_field_of_raw_ok_pfx m i dst _ owl w hraw hwpos (by omega)
      have hdropw : (listWrite dst 0 src).drop w = src.drop w ++ dst.drop src.length := by
        rw [hb1, drop_append_of_le src _ w (by omega)]
      have hdwlen : (src.drop w).length = owl - w := by
        simp only [List.length_drop]; omega
      have htake : ((listWrite dst 0 src).drop w).take (owl - w) = src.drop w := by
        rw [hdropw, ← hdwlen, take_append_self]
      rw [hgf, htake]
      constructor
      · rfl
      · simp only [getBytes, listWrite_zero, ← hdwlen, take_append_self]

/-- Witness: the stored 7-byte override at position 2 of `msgV` (prefix
`"05"` + 5 payload bytes) errors for a 5-byte destination and succeeds for
a 7-byte destination, returning the 5 logical bytes. -/
theorem c8_buffer_threshold_witness :
    get_field msgV 2 dst5 = some (.error "Input buffer is smaller than field value") ∧
    getCount (get_field msgV 2 dst7) = some 5 ∧
    getBytes (get_field msgV 2 dst7) = some pay5 :=
  ⟨(c8_buffer_threshold msgV 2 dst5 [48, 53, 53, 53, 53, 53, 53] 7 (by decide) (by decide)
      (by decide) (Or.inl (by decide)) (by decide)).1 (by decide),
   ((c8_buffer_threshold msgV 2 dst7 [48, 53, 53, 53, 53, 53, 53] 7 (by decide) (by decide)
      (by decide) (Or.inl (by decide)) (by decide)).2 (by decide)).1,
   ((c8_buffer_threshold msgV 2 dst7 [48, 53, 53, 53, 53, 53, 53] 7 (by decide) (by decide)
      (by decide) (Or.inl (by decide)) (by decide)).2 (by decide)).2⟩

/-- Counterexample to C8 as stated: position 2 of `msgV` holds the logical
payload `pay5` (5 bytes), and `dst5` is not smaller than it, yet
`get_field` still returns the buffer-too-small error: the code demands
room for the length prefix as well. -/
theorem c8_counterexample :
    dst5.length = 5 ∧
    getBytes (get_field msgV 2 dst7) = some pay5 ∧ pay5.length = 5 ∧
    get_field msgV 2 dst5 = some (.error "Input buffer is smaller than field value") := by
  refine ⟨by decide, by decide, by decide, by decide⟩

/-! ### Parse-loop characterization (for C2 and C4) -/

/-- Unfolding a successful slice-from. -/
theorem sliceFrom_eq_some (b : List Nat) (a : Nat) (s : List Nat)
    (h : sliceFrom b a = some s) : a ≤ b.length ∧ s = b.drop a := by
  by_cases hc : a ≤ b.length
  · rw [sliceFrom, if_pos hc] at h
    cases h
    exact ⟨hc, rfl⟩
  · rw [sliceFrom, if_neg hc] at h
    cases h

/-- The parse loop after the bitmap has been found: one slot per remaining
spec position, presence given by bit `i + j - k` of the decoded array, no
overrides, and each present slot's length justified by `get_field_length`
at its recorded offset. -/
theorem fba_post (input : List Nat) (ba : List Bool) :
    ∀ (rest : List IsoField) (i pidx k : Nat) (out : List FieldPayload),
    fba_loop input rest i pidx true k [ba] = some out →
    out.length = rest.length ∧
    (∀ j, j < out.length →
      (out.getD j default).new_payload = none ∧
      (out.getD j default).exist = ba.getD (i + j - k) false ∧
      ((out.getD j default).exist = true →
        get_field_length (rest.getD j default) (input.drop (out.getD j default).index) =
          some (out.getD j default).len ∧
        (out.getD j default).index ≤ input.length)) ∧
    ((out.getD 0 default).exist = true → (out.getD 0 default).index = pidx) := by
  intro rest
  induction rest with
  | nil =>
    intro i pidx k out hp
    simp only [fba_loop] at hp
    cases hp
    refine ⟨rfl, ?_, ?_⟩
    · intro j hj; simp at hj
    · intro hex; simp [default] at hex
  | cons f rest ih =>
    intro i pidx k out hp
    simp only [fba_loop, not_true, false_and, if_false] at hp
    by_cases hbit : i - k < 128
    · rw [if_pos hbit] at hp
      simp only [if_true, Option.some_bind] at hp
      by_cases hb : ba.getD (i - k) false
      · rw [if_pos hb] at hp
        cases hsl : sliceFrom input pidx with
        | none => rw [hsl] at hp; cases hp
        | some sub =>
          rw [hsl] at hp
          simp only [Option.some_bind] at hp
          cases hgl : get_field_length f sub with
          | none => rw [hgl] at hp; cases hp
          | some flen =>
            rw [hgl] at hp
            simp only [Option.some_bind, Option.map_eq_some'] at hp
            obtain ⟨out2, hloop2, hout⟩ := hp
            obtain ⟨hple, hsub⟩ := sliceFrom_eq_some input pidx sub hsl
            subst hsub
            obtain ⟨hlen2, hslots2, hhead2⟩ := ih (i + 1) (pidx + flen) k out2 hloop2
            subst hout
            refine ⟨by simp [hlen2], ?_, ?_⟩
            · intro j hj
              cases j with
              | zero =>
                refine ⟨rfl, ?_, ?_⟩
                · simpa using hb.symm
                · intro _
                  exact ⟨hgl, hple⟩
              | succ j2 =>
                have hj2 : j2 < out2.length := by
                  simpa [Nat.succ_lt_succ_iff] using hj
                have := hslots2 j2 hj2
                have harith : i + (j2 + 1) - k = i + 1 + j2 - k := by omega
                simpa [harith] using this
            · intro _
              rfl
      · rw [if_neg hb] at hp
        simp only [Option.map_eq_some'] at hp
        obtain ⟨out2, hloop2, hout⟩ := hp
        obtain ⟨hlen2, hslots2, hhead2⟩ := ih (i + 1) pidx k out2 hloop2
        subst hout
        refine ⟨by simp [hlen2], ?_, ?_⟩
        · intro j hj
          cases j with
          | zero =>
            refine ⟨rfl, ?_, ?_⟩
            · simp only [Bool.not_eq_true] at hb
              simpa [default] using hb.symm
            · intro hex
              simp [default] at hex
          | succ j2 =>
            have hj2 : j2 < out2.length := by
              simpa [Nat.succ_lt_succ_iff] using hj
            have := hslots2 j2 hj2
            have harith : i + (j2 + 1) - k = i + 1 + j2 - k := by omega
            simpa [harith] using this
        · intro hex
          simp [default] at hex
    · rw [if_neg hbit] at hp
      simp only [if_true, Option.none_bind] at hp
      cases hp

/-- The parse loop before any bitmap: every field is implicitly present,
and each slot's length is justified by `get_field_length` at its offset. -/
theorem fba_pre (input : List Nat) :
    ∀ (pre rest : List IsoField) (i pidx : Nat) (out : List FieldPayload),
    (∀ f ∈ pre, isBmpChar f = false) →
    fba_loop input (pre ++ rest) i pidx false 0 [] = some out →
    ∃ pidx2 outPre outRest,
      out = outPre ++ outRest ∧ outPre.length = pre.length ∧
      fba_loop input rest (i + pre.length) pidx2 false 0 [] = some outRest ∧
      (∀ j, j < outPre.length →
        (outPre.getD j default).new_payload = none ∧
        (outPre.getD j default).exist = true ∧
        get_field_length (pre.getD j default) (input.drop (outPre.getD j default).index) =
          some (outPre.getD j default).len ∧
        (outPre.getD j default).index ≤ input.length) := by
  intro pre
  induction pre with
  | nil =>
    intro rest i pidx out hnb hp
    refine ⟨pidx, [], out, by simp, rfl, by simpa using hp, ?_⟩
    intro j hj; simp at hj
  | cons f pre ih =>
    intro rest i pidx out hnb hp
    have hf : isBmpChar f = false := hnb f (by simp)
    have hcond : ¬ (¬ (false : Bool) = true ∧ isBmpChar f = true) := by simp [hf]
    simp only [List.cons_append, fba_loop] at hp
    rw [if_neg hcond] at hp
    rw [if_neg (by simp : ¬ (false : Bool) = true)] at hp
    simp only [Option.some_bind, if_pos rfl, if_true] at hp
    cases hsl : sliceFrom input pidx with
    | none => rw [hsl] at hp; cases hp
    | some sub =>
      rw [hsl] at hp
      simp only [Option.some_bind] at hp
      cases hgl : get_field_length f sub with
      | none => rw [hgl] at hp; cases hp
      | some flen =>
        rw [hgl] at hp
        simp only [Option.some_bind, Option.map_eq_some'] at hp
        obtain ⟨out2, hloop2, hout⟩ := hp
        obtain ⟨hple, hsub⟩ := sliceFrom_eq_some input pidx sub hsl
        subst hsub
        obtain ⟨pidx2, outPre, outRest, hdec, hoplen, hloop3, hslots⟩ :=
          ih rest (i + 1) (pidx + flen) out2 (fun g hg => hnb g (by simp [hg])) hloop2
        subst hout hdec
        refine ⟨pidx2,
          { exist := true, index := pidx, len := flen, new_payload := none } :: outPre,
          outRest, by simp, by simp [hoplen], ?_, ?_⟩
        · have heq : i + (f :: pre).length = i + 1 + pre.length := by
            simp only [List.length_cons]
            omega
          rw [heq]
          exact hloop3
        · intro j hj
          cases j with
          | zero => exact ⟨rfl, rfl, hgl, hple⟩
          | succ j2 =>
            have hj2 : j2 < outPre.length := by
              simpa [Nat.succ_lt_succ_iff] using hj
            simpa using hslots j2 hj2

/-- The parse step at the first bitmap-kind position: it demands 20 bytes
of input, reads the 16 octets at absolute offsets 4..20 (never at the
cursor), records the slot as `{exist, offset := cursor, len := 12}`, and
resumes at cursor + 12. -/
theorem fba_at_bmp (input : List Nat) (f : IsoField) (rest : List IsoField)
    (i pidx : Nat) (out : List FieldPayload)
    (hbm : isBmpChar f = true)
    (hp : fba_loop input (f :: rest) i pidx false 0 [] = some out) :
    20 ≤ input.length ∧
    ∃ outRest,
      out = { exist := true, index := pidx, len := 12, new_payload := none } :: outRest ∧
      fba_loop input rest (i + 1) (pidx + 12) true i [bmpBits input] = some outRest := by
  have hcond : ¬ (false : Bool) = true ∧ isBmpChar f = true := ⟨by simp, hbm⟩
  simp only [fba_loop] at hp
  rw [if_pos hcond] at hp
  cases hsl : sliceTo input 4 (4 + 16) with
  | none => rw [hsl] at hp; cases hp
  | some raw16 =>
    rw [hsl] at hp
    simp only [Option.some_bind] at hp
    have hin : 20 ≤ input.length ∧ raw16 = (input.drop 4).take 16 := by
      by_cases hc : 4 ≤ 4 + 16 ∧ 4 + 16 ≤ input.length
      · rw [sliceTo, if_pos hc] at hsl
        cases hsl
        exact ⟨by omega, rfl⟩
      · rw [sliceTo, if_neg hc] at hsl
        cases hsl
    obtain ⟨h20, hraw⟩ := hin
    have hr16 : raw16.length = 16 := by
      rw [hraw]
      simp only [List.length_take, List.length_drop]
      omega
    have hpb : process_bitmap raw16 = some [bmpBits input] := by
      rw [process_bitmap, sliceTo, if_pos (by omega : 0 ≤ 16 ∧ 16 ≤ raw16.length)]
      simp only [List.drop_zero, Nat.sub_zero, Option.map_some', Option.some.injEq,
        List.cons.injEq, and_true]
      rw [List.take_of_length_le (by omega), hraw]
      rfl
    rw [hpb] at hp
    simp only [Option.some_bind, Option.map_eq_some'] at hp
    obtain ⟨out2, hloop2, hout⟩ := hp
    subst hout
    exact ⟨h20, out2, rfl, hloop2⟩

/-- Decomposition of a spec at its first bitmap-kind position. -/
theorem firstBmp_decomp :
    ∀ (spec : List IsoField) (k : Nat), firstBmpIdx spec = some k →
    ∃ pre f rest, spec = pre ++ f :: rest ∧ pre.length = k ∧ isBmpChar f = true ∧
      ∀ g ∈ pre, isBmpChar g = false := by
  intro spec
  induction spec with
  | nil => intro k h; simp [firstBmpIdx] at h
  | cons f rest ih =>
    intro k h
    by_cases hf : isBmpChar f
    · rw [firstBmpIdx, if_pos hf] at h
      cases h
      exact ⟨[], f, rest, by simp, rfl, hf, by simp⟩
    · rw [firstBmpIdx, if_neg hf] at h
      simp only [Option.map_eq_some'] at h
      obtain ⟨k2, hk2, hkk⟩ := h
      obtain ⟨pre, g, rest2, hdec, hlen, hbm, hpre⟩ := ih k2 hk2
      refine ⟨f :: pre, g, rest2, by simp [hdec], by simp [hlen, ← hkk], hbm, ?_⟩
      intro g2 hg2
      rcases List.mem_cons.mp hg2 with h | h
      · subst h; simpa using hf
      · exact hpre g2 h

/-- A spec with no bitmap-kind position at all. -/
theorem firstBmp_none :
    ∀ (spec : List IsoField), firstBmpIdx spec = none → ∀ g ∈ spec, isBmpChar g = false := by
  intro spec
  induction spec with
  | nil => intro _ g hg; simp at hg
  | cons f rest ih =>
    intro h g hg
    by_cases hf : isBmpChar f
    · rw [firstBmpIdx, if_pos hf] at h; cases h
    · rw [firstBmpIdx, if_neg hf] at h
      simp only [Option.map_eq_none'] at h
      rcases List.mem_cons.mp hg with h2 | h2
      · subst h2; simpa using hf
      · exact ih h g h2

/-- Unfolding a successful bounded slice. -/
theorem sliceTo_eq_some (b : List Nat) (a c : Nat) (s : List Nat)
    (h : sliceTo b a c = some s) :
    a ≤ c ∧ c ≤ b.length ∧ s = (b.drop a).take (c - a) := by
  by_cases hc : a ≤ c ∧ c ≤ b.length
  · rw [sliceTo, if_pos hc] at h
    cases h
    exact ⟨hc.1, hc.2, rfl⟩
  · rw [sliceTo, if_neg hc] at h
    cases h

/-- A successful `get_field_length` of a variable-size field certifies that
the prefix bytes parsed as a decimal number. -/
theorem gfl_digits (f : IsoField) (sub : List Nat) (n w : Nat)
    (hw : prefWidthOf f.size_type = some w)
    (hg : get_field_length f sub = some n) :
    (from_str_radix10 (sub.take w)).isSome = true := by
  cases hst : f.size_type <;> rw [hst] at hw <;>
    simp only [prefWidthOf, Option.some.injEq, reduceCtorEq] at hw <;> subst hw <;>
    simp only [get_field_length, hst, Option.bind_eq_some, Option.map_eq_some'] at hg <;>
    obtain ⟨str, hsl, a, ha, _⟩ := hg <;>
    obtain ⟨_, _, hstr⟩ := sliceTo_eq_some sub 0 _ str hsl <;>
    simp only [List.drop_zero, Nat.sub_zero] at hstr <;>
    rw [← hstr, ha] <;> rfl

/-! ### C2: the bitmap step of the parser -/

/-- The slots produced by parsing `input2` against `spec2`. -/
def fs2 : List FieldPayload :=
  [{ exist := true, index := 0, len := 6, new_payload := none },
   { exist := true, index := 6, len := 12, new_payload := none },
   { exist := true, index := 18, len := 1, new_payload := none }]

/-- What the parser actually does at the first bitmap-kind position `k`:
it requires at least 20 input bytes, reads the 16 presence octets at the
absolute offsets 4..20 of the buffer — not at the cursor — records the slot
as `{exist := true, offset := cursor, on_wire_len := 12}` (12 rather than
the declared wire width), advances the cursor by exactly 12 (the very next
present slot starts at offset + 12), and afterwards position `j` is present
iff bit `j - k` of those fixed-offset bits is set. -/
theorem c2_amended (spec : List IsoField) (input : List Nat) (out : List FieldPayload)
    (k : Nat) (hp : from_byte_array spec input = some out)
    (hk : firstBmpIdx spec = some k) :
    20 ≤ input.length ∧
    (out.getD k default).exist = true ∧
    (out.getD k default).len = 12 ∧
    (out.getD k default).new_payload = none ∧
    (∀ j, k < j → j < out.length →
      (out.getD j default).exist = (bmpBits input).getD (j - k) false) ∧
    (k + 1 < out.length → (out.getD (k + 1) default).exist = true →
      (out.getD (k + 1) default).index = (out.getD k default).index + 12) := by
  obtain ⟨pre, f, rest, hspec, hlen, hbm, hpre⟩ := firstBmp_decomp spec k hk
  subst hspec
  simp only [from_byte_array] at hp
  obtain ⟨pidx2, outPre, outRest, hout, hoplen, hrest, hpreC⟩ :=
    fba_pre input pre (f :: rest) 0 0 out hpre hp
  obtain ⟨h20, outR2, houtR, hloop2⟩ :=
    fba_at_bmp input f rest (0 + pre.length) pidx2 outRest hbm hrest
  obtain ⟨hlenR2, hslots, hhead⟩ :=
    fba_post input (bmpBits input) rest (0 + pre.length + 1) (pidx2 + 12)
      (0 + pre.length) outR2 hloop2
  subst hout houtR
  have hopk : outPre.length = k := by rw [hoplen, hlen]
  have hA : (outPre ++
      ({ exist := true, index := pidx2, len := 12, new_payload := none } :: outR2)).getD
        k default = { exist := true, index := pidx2, len := 12, new_payload := none } := by
    have h := getD_append_right outPre
      ({ exist := true, index := pidx2, len := 12, new_payload := none } :: outR2) 0 default
    rw [hopk] at h
    simpa using h
  have hB : ∀ j2, (outPre ++
      ({ exist := true, index := pidx2, len := 12, new_payload := none } :: outR2)).getD
        (k + 1 + j2) default = outR2.getD j2 default := by
    intro j2
    have h := getD_append_right outPre
      ({ exist := true, index := pidx2, len := 12, new_payload := none } :: outR2)
      (1 + j2) default
    rw [hopk] at h
    rw [show k + 1 + j2 = k + (1 + j2) by omega, h]
    rw [show 1 + j2 = j2 + 1 by omega]
    simp only [List.getD_cons_succ]
  have hOlen : (outPre ++
      ({ exist := true, index := pidx2, len := 12, new_payload := none } :: outR2)).length =
      k + 1 + outR2.length := by
    simp only [List.length_append, List.length_cons, hopk]
    omega
  refine ⟨h20, by rw [hA], by rw [hA], by rw [hA], ?_, ?_⟩
  · intro j hkj hjl
    obtain ⟨j2, hj2⟩ : ∃ j2, j = k + 1 + j2 := ⟨j - k - 1, by omega⟩
    subst hj2
    rw [hB j2]
    have hb2 : j2 < outR2.length := by
      rw [hOlen] at hjl
      omega
    rw [hOlen] at hjl
    have hbit := (hslots j2 hb2).2.1
    have harith : 0 + pre.length + 1 + j2 - (0 + pre.length) = k + 1 + j2 - k := by
      rw [hlen]; omega
    rw [harith] at hbit
    exact hbit
  · intro hk1 hex
    have h0 : (outPre ++
        ({ exist := true, index := pidx2, len := 12, new_payload := none } :: outR2)).getD
          (k + 1) default = outR2.getD 0 default := by
      have := hB 0
      simpa using this
    rw [h0] at hex ⊢
    rw [hA]
    exact hhead hex

/-- Witness: apply the amended bitmap-step theorem to `spec2` and `input2`
(the bitmap is position 1, the cursor there is 6). -/
theorem c2_amended_witness :
    20 ≤ input2.length ∧ (fs2.getD 1 default).len = 12 ∧
    (fs2.getD 2 default).exist = (bmpBits input2).getD 1 false :=
  ⟨(c2_amended spec2 input2 fs2 1 (by decide) (by decide)).1,
   (c2_amended spec2 input2 fs2 1 (by decide) (by decide)).2.2.1,
   (c2_amended spec2 input2 fs2 1 (by decide) (by decide)).2.2.2.2.1 2 (by decide)
     (by decide)⟩

/-- Counterexample to C2 as stated.  Under `spec2` the MTI is 6 bytes long,
so the parser reaches the bitmap (a binary-class, declared-width-16 field)
with the cursor at 6; the claim then requires `on_wire_len` to be the
bitmap wire width (8 or 16 octets binary, 16 or 32 ASCII-hex) and the
decode to start at the cursor.  The code instead records `len = 12` and
decodes at absolute offset 4: byte 4 (0x40) has bit 1 set, so position 2 is
marked present, although byte 6 — the first bitmap byte per the claim — has
bit 1 clear (`testBit 48 6 = false`). -/
theorem c2_counterexample :
    from_byte_array spec2 input2 = some fs2 ∧
    (fs2.getD 1 default).len = 12 ∧
    (spec2.getD 1 default).char_type = FieldCharType.Iso8583_bmp ∧
    (spec2.getD 1 default).length = 16 ∧
    (fs2.getD 2 default).exist = true ∧
    input2.getD 6 0 = 48 ∧ Nat.testBit 48 6 = false := by
  refine ⟨by decide, by decide, by decide, by decide, by decide, by decide, by decide⟩

/-! ### C4: malformed length prefixes -/

/-- The slots produced by parsing `input4w` against `spec4w`. -/
def fs4w : List FieldPayload :=
  [{ exist := true, index := 0, len := 4, new_payload := none },
   { exist := true, index := 4, len := 12, new_payload := none },
   { exist := true, index := 16, len := 7, new_payload := none }]

/-- Whenever parsing completes at all, every present variable-length slot's
2/3/4 prefix bytes parsed as a decimal number.  Contrapositively: an input
whose reached length prefix holds a non-digit byte never yields a message —
and since the parser's only outcomes are a slot vector or a panic
(`from_str_radix(..).unwrap()`), no `MalformedLengthPrefix` error value is
ever produced; no such value exists in the code. -/
theorem c4_amended (spec : List IsoField) (input : List Nat) (out : List FieldPayload)
    (j w : Nat) (hp : from_byte_array spec input = some out)
    (hj : j < out.length) (hjs : j < spec.length)
    (hnb : firstBmpIdx spec ≠ some j)
    (hex : (out.getD j default).exist = true)
    (hw : prefWidthOf (spec.getD j default).size_type = some w) :
    (from_str_radix10 ((input.drop (out.getD j default).index).take w)).isSome = true := by
  simp only [from_byte_array] at hp
  cases hfb : firstBmpIdx spec with
  | none =>
    have hnone := firstBmp_none spec hfb
    obtain ⟨pidx2, outPre, outRest, hout, hoplen, hrest, hpreC⟩ :=
      fba_pre input spec [] 0 0 out hnone (by simpa using hp)
    have houtR : outRest = [] := by
      simp only [fba_loop] at hrest
      exact (Option.some.injEq _ _).mp hrest.symm
    subst houtR hout
    simp only [List.append_nil] at hj ⊢
    obtain ⟨-, -, hgl, -⟩ := hpreC j hj
    exact gfl_digits _ _ _ w hw hgl
  | some k =>
    obtain ⟨pre, f, rest, hspec, hlen, hbm, hpre⟩ := firstBmp_decomp spec k hfb
    subst hspec
    obtain ⟨pidx2, outPre, outRest, hout, hoplen, hrest, hpreC⟩ :=
      fba_pre input pre (f :: rest) 0 0 out hpre hp
    obtain ⟨h20, outR2, houtR, hloop2⟩ :=
      fba_at_bmp input f rest (0 + pre.length) pidx2 outRest hbm hrest
    obtain ⟨hlenR2, hslots, hhead⟩ :=
      fba_post input (bmpBits input) rest (0 + pre.length + 1) (pidx2 + 12)
        (0 + pre.length) outR2 hloop2
    subst hout houtR
    have hopk : outPre.length = k := by rw [hoplen, hlen]
    rcases Nat.lt_trichotomy j k with hjk | hjk | hjk
    · -- before the bitmap
      have hgetO : (outPre ++
          ({ exist := true, index := pidx2, len := 12, new_payload := none } :: outR2)).getD
            j default = outPre.getD j default :=
        getD_append_left _ _ j default (by omega)
      have hgetS : (pre ++ f :: rest).getD j default = pre.getD j default :=
        getD_append_left _ _ j default (by omega)
      rw [hgetO] at hex ⊢
      rw [hgetS] at hw
      obtain ⟨-, -, hgl, -⟩ := hpreC j (by omega)
      exact gfl_digits _ _ _ w hw hgl
    · exact absurd (hfb.trans (by rw [hjk])) hnb
    · -- after the bitmap
      obtain ⟨j2, hj2⟩ : ∃ j2, j = k + 1 + j2 := ⟨j - k - 1, by omega⟩
      subst hj2
      have hgetO : (outPre ++
          ({ exist := true, index := pidx2, len := 12, new_payload := none } :: outR2)).getD
            (k + 1 + j2) default = outR2.getD j2 default := by
        have h := getD_append_right outPre
          ({ exist := true, index := pidx2, len := 12, new_payload := none } :: outR2)
          (1 + j2) default
        rw [hopk] at h
        rw [show k + 1 + j2 = k + (1 + j2) by omega, h,
          show 1 + j2 = j2 + 1 by omega]
        simp only [List.getD_cons_succ]
      have hgetS : (pre ++ f :: rest).getD (k + 1 + j2) default = rest.getD j2 default := by
        rw [List.append_cons]
        have h := getD_append_right (pre ++ [f]) rest j2 default
        have hpl : (pre ++ [f]).length = k + 1 := by simp [hlen]
        rw [hpl] at h
        rw [show k + 1 + j2 = k + 1 + j2 from rfl, h]
      have hb2 : j2 < outR2.length := by
        have : (outPre ++
            ({ exist := true, index := pidx2, len := 12, new_payload := none } :: outR2)).length =
            k + 1 + outR2.length := by
          simp only [List.length_append, List.length_cons, hopk]
          omega
        omega
      rw [hgetO] at hex ⊢
      rw [hgetS] at hw
      obtain ⟨hgl, -⟩ := (hslots j2 hb2).2.2 hex
      exact gfl_digits _ _ _ w hw hgl

/-- Witness: under `spec4w`, position 2's LLVAR prefix is read at offsets
16..18 of `input4w`, which hold the digits `"05"`. -/
theorem c4_amended_witness :
    (from_str_radix10 ((input4w.drop 16).take 2)).isSome = true :=
  c4_amended spec4w input4w fs4w 2 2 (by decide) (by decide) (by decide) (by decide)
    (by decide) (by decide)

/-- Counterexample to C4 as stated: `input4c` carries the non-digit bytes
`"AB"` exactly where the parser reads position 2's LLVAR length prefix, and
parsing produces no `MalformedLengthPrefix` error value — it produces
nothing at all (`none`, the model of the `from_str_radix(..).unwrap()`
panic; `from_byte_array` returns `()` in the source and has no error
channel). -/
theorem c4_counterexample :
    from_byte_array spec4w input4c = none ∧
    (input4c.drop 16).take 2 = [65, 66] ∧
    (spec4w.getD 2 default).size_type = FieldSizeType.LlVar := by
  refine ⟨by decide, by decide, by decide⟩

/-! ### C3: the rebuilt bitmap of the serializer -/

theorem exists_cons8 {α : Type} : ∀ (l : List α), 8 ≤ l.length →
    ∃ a0 a1 a2 a3 a4 a5 a6 a7 t,
      l = a0 :: a1 :: a2 :: a3 :: a4 :: a5 :: a6 :: a7 :: t
  | a0 :: a1 :: a2 :: a3 :: a4 :: a5 :: a6 :: a7 :: t, _ =>
    ⟨a0, a1, a2, a3, a4, a5, a6, a7, t, rfl⟩
  | [], h => by simp at h
  | [_], h => by simp at h
  | [_, _], h => by simp at h
  | [_, _, _], h => by simp at h
  | [_, _, _, _], h => by simp at h
  | [_, _, _, _, _], h => by simp at h
  | [_, _, _, _, _, _], h => by simp at h
  | [_, _, _, _, _, _, _], h => by simp at h

theorem exists_cons4 {α : Type} : ∀ (l : List α), 4 ≤ l.length →
    ∃ a0 a1 a2 a3 t, l = a0 :: a1 :: a2 :: a3 :: t
  | a0 :: a1 :: a2 :: a3 :: t, _ => ⟨a0, a1, a2, a3, t, rfl⟩
  | [], h => by simp at h
  | [_], h => by simp at h
  | [_, _], h => by simp at h
  | [_, _, _], h => by simp at h

theorem bitsToByte_foldl_acc :
    ∀ (l : List Bool) (a : Nat),
      l.foldl (fun x b => 2 * x + (if b then 1 else 0)) a =
        a * 2 ^ l.length + l.foldl (fun x b => 2 * x + (if b then 1 else 0)) 0 := by
  intro l
  induction l with
  | nil => intro a; simp
  | cons x l ih =>
    intro a
    simp only [List.foldl_cons, List.length_cons]
    rw [ih (2 * a + (if x then 1 else 0)), ih (2 * 0 + (if x then 1 else 0))]
    rw [pow_succ]
    ring

theorem bitsToByte_lt : ∀ (l : List Bool), bitsToByte l < 2 ^ l.length := by
  intro l
  induction l with
  | nil => simp [bitsToByte]
  | cons x l ih =>
    simp only [bitsToByte, List.foldl_cons] at *
    rw [bitsToByte_foldl_acc l]
    have he : (2 * 0 + (if x = true then 1 else 0)) * 2 ^ l.length ≤ 2 ^ l.length := by
      split <;> simp
    simp only [List.length_cons, pow_succ]
    omega

theorem bitsToByte_cons_true (l : List Bool) :
    bitsToByte (true :: l) = 2 ^ l.length + bitsToByte l := by
  simp only [bitsToByte, List.foldl_cons]
  rw [bitsToByte_foldl_acc l]
  norm_num

theorem bitsToBytes_len8 : ∀ (n : Nat) (l : List Bool), l.length = 8 * n →
    (bitsToBytes l).length = n := by
  intro n
  induction n with
  | zero =>
    intro l hl
    have : l = [] := List.eq_nil_of_length_eq_zero (by omega)
    subst this
    rfl
  | succ n2 ih =>
    intro l hl
    obtain ⟨a0, a1, a2, a3, a4, a5, a6, a7, t, ht⟩ := exists_cons8 l (by omega)
    subst ht
    simp only [bitsToBytes, List.length_cons]
    rw [ih t (by simp only [List.length_cons] at hl; omega)]

theorem hex8_length (w : Nat) : (hex8 w).length = 8 := by
  simp [hex8]

theorem bytesToHexGroups_len4 : ∀ (n : Nat) (l : List Nat), l.length = 4 * n →
    (bytesToHexGroups l).length = 8 * n := by
  intro n
  induction n with
  | zero =>
    intro l hl
    have : l = [] := List.eq_nil_of_length_eq_zero (by omega)
    subst this
    rfl
  | succ n2 ih =>
    intro l hl
    obtain ⟨a0, a1, a2, a3, t, ht⟩ := exists_cons4 l (by omega)
    subst ht
    simp only [bytesToHexGroups, List.length_append, hex8_length]
    rw [ih t (by simp only [List.length_cons] at hl; omega)]
    omega

theorem hexCharVal_hexDigitAscii (d : Nat) (h : d < 16) :
    hexCharVal (hexDigitAscii d) = d := by
  simp only [hexCharVal, hexDigitAscii]
  split_ifs <;> omega

theorem hexToBits_head (c : Nat) (l : List Nat) :
    (hexToBits (c :: l)).getD 0 false = Nat.testBit (hexCharVal c) 3 := by
  simp [hexToBits, List.range_succ, List.range_zero]

/-- The serializer's rebuilt-bitmap policy, as the code actually implements
it: when at least one 128-bit array is emitted (`bit_array_index ≥ 1`,
which requires at least 129 spec positions), the first emitted segment is
always 32 ASCII-hex characters — 128 bits — and bit 0 of its decoding is
always set, regardless of whether any position above 64 is present; and
when `bit_array_index = 0` (at most 128 positions) no rebuilt bitmap is
emitted at all. -/
theorem c3_amended :
    (∀ (ba : List Bool) (bas : List (List Bool)), ba.length = 128 →
      (buildBitmapStr (ba :: bas) 1).length = 32 ∧
      (hexToBits (buildBitmapStr (ba :: bas) 1)).getD 0 false = true) ∧
    (∀ bas, buildBitmapStr bas 0 = []) := by
  constructor
  · intro ba bas hlen
    have hgo1 : buildBitmapGo bas 1 1 = [] := by
      cases bas <;> simp [buildBitmapGo]
    have hstr : buildBitmapStr (ba :: bas) 1 =
        bytesToHexGroups (bitsToBytes (ba.set 0 true)) := by
      simp [buildBitmapStr, buildBitmapGo, hlen, hgo1]
    have hslen : (ba.set 0 true).length = 128 := by
      simp [hlen]
    constructor
    · rw [hstr]
      have hb : (bitsToBytes (ba.set 0 true)).length = 16 :=
        bitsToBytes_len8 16 _ (by omega)
      exact bytesToHexGroups_len4 4 _ (by omega)
    · -- decompose the first 25 bits of the array, bit 0 forced true
      obtain ⟨x, t, hx⟩ : ∃ x t, ba = x :: t := by
        cases ba with
        | nil => simp at hlen
        | cons x t => exact ⟨x, t, rfl⟩
      subst hx
      have hset : (x :: t).set 0 true = true :: t := rfl
      rw [hstr, hset]
      have htlen : t.length = 127 := by simpa using hlen
      obtain ⟨a0, a1, a2, a3, a4, a5, a6, a7, t1, h1⟩ := exists_cons8 t (by omega)
      subst h1
      obtain ⟨b0, b1, b2, b3, b4, b5, b6, b7, t2, h2⟩ := exists_cons8 t1 (by
        simp only [List.length_cons] at htlen
        omega)
      subst h2
      obtain ⟨c0, c1, c2, c3, c4, c5, c6, c7, t3, h3⟩ := exists_cons8 t2 (by
        simp only [List.length_cons] at htlen
        omega)
      subst h3
      obtain ⟨d0, d1, d2, d3, d4, d5, d6, d7, t4, h4⟩ := exists_cons8 t3 (by
        simp only [List.length_cons] at htlen
        omega)
      subst h4
      have hbytes : bitsToBytes (true :: a0 :: a1 :: a2 :: a3 :: a4 :: a5 :: a6 ::
          a7 :: b0 :: b1 :: b2 :: b3 :: b4 :: b5 :: b6 ::
          b7 :: c0 :: c1 :: c2 :: c3 :: c4 :: c5 :: c6 ::
          c7 :: d0 :: d1 :: d2 :: d3 :: d4 :: d5 :: d6 :: d7 :: t4) =
          bitsToByte [true, a0, a1, a2, a3, a4, a5, a6] ::
          bitsToByte [a7, b0, b1, b2, b3, b4, b5, b6] ::
          bitsToByte [b7, c0, c1, c2, c3, c4, c5, c6] ::
          bitsToByte [c7, d0, d1, d2, d3, d4, d5, d6] ::
          bitsToBytes (d7 :: t4) := rfl
      rw [hbytes]
      have hgroups : bytesToHexGroups
          (bitsToByte [true, a0, a1, a2, a3, a4, a5, a6] ::
           bitsToByte [a7, b0, b1, b2, b3, b4, b5, b6] ::
           bitsToByte [b7, c0, c1, c2, c3, c4, c5, c6] ::
           bitsToByte [c7, d0, d1, d2, d3, d4, d5, d6] ::
           bitsToBytes (d7 :: t4)) =
          hex8 (bitsToByte [true, a0, a1, a2, a3, a4, a5, a6] * 2 ^ 24 +
            bitsToByte [a7, b0, b1, b2, b3, b4, b5, b6] * 2 ^ 16 +
            bitsToByte [b7, c0, c1, c2, c3, c4, c5, c6] * 2 ^ 8 +
            bitsToByte [c7, d0, d1, d2, d3, d4, d5, d6]) ++
          bytesToHexGroups (bitsToBytes (d7 :: t4)) := rfl
      rw [hgroups]
      set E0 := bitsToByte [true, a0, a1, a2, a3, a4, a5, a6] with hE0
      set E1 := bitsToByte [a7, b0, b1, b2, b3, b4, b5, b6] with hE1
      set E2 := bitsToByte [b7, c0, c1, c2, c3, c4, c5, c6] with hE2
      set E3 := bitsToByte [c7, d0, d1, d2, d3, d4, d5, d6] with hE3
      have hE0lo : 128 ≤ E0 := by
        rw [hE0, bitsToByte_cons_true]
        norm_num
      have hE0hi : E0 < 256 := by
        have := bitsToByte_lt [true, a0, a1, a2, a3, a4, a5, a6]
        simpa using this
      have hE1hi : E1 < 256 := by
        have := bitsToByte_lt [a7, b0, b1, b2, b3, b4, b5, b6]
        simpa using this
      have hE2hi : E2 < 256 := by
        have := bitsToByte_lt [b7, c0, c1, c2, c3, c4, c5, c6]
        simpa using this
      have hE3hi : E3 < 256 := by
        have := bitsToByte_lt [c7, d0, d1, d2, d3, d4, d5, d6]
        simpa using this
      set W := E0 * 2 ^ 24 + E1 * 2 ^ 16 + E2 * 2 ^ 8 + E3 with hW
      have htl : hex8 W = hexDigitAscii (W / 16 ^ 7 % 16) ::
          ((List.range 7).map fun k => hexDigitAscii (W / 16 ^ (7 - Nat.succ k) % 16)) := by
        rw [hex8, List.range_succ_eq_map, List.map_cons, List.map_map]
        rfl
      rw [htl, List.cons_append, hexToBits_head]
      have hdiv : W / 16 ^ 7 % 16 = E0 / 16 := by
        have h167 : (16 : Nat) ^ 7 = 2 ^ 28 := by norm_num
        have hmod : 16 * (E0 / 16) + E0 % 16 = E0 := Nat.div_add_mod E0 16
        have hWdec : W = 2 ^ 28 * (E0 / 16) + (E0 % 16 * 2 ^ 24 +
            (E1 * 2 ^ 16 + E2 * 2 ^ 8 + E3)) := by
          rw [hW]
          have h1 : E0 * 2 ^ 24 = (16 * (E0 / 16) + E0 % 16) * 2 ^ 24 := by rw [hmod]
          rw [h1]
          ring
        have hrem : E0 % 16 * 2 ^ 24 + (E1 * 2 ^ 16 + E2 * 2 ^ 8 + E3) < 2 ^ 28 := by
          have h2 : E0 % 16 < 16 := Nat.mod_lt E0 (by omega)
          have h3 : E0 % 16 * 2 ^ 24 ≤ 15 * 2 ^ 24 :=
            Nat.mul_le_mul_right _ (by omega)
          norm_num at h3 ⊢
          omega
        rw [h167, hWdec, Nat.mul_add_div (by norm_num), Nat.div_eq_of_lt hrem]
        have hq : E0 / 16 < 16 := by omega
        rw [Nat.add_zero, Nat.mod_eq_of_lt hq]
      rw [hdiv]
      have hqlo : 8 ≤ E0 / 16 := by omega
      have hqhi : E0 / 16 < 16 := by omega
      rw [hexCharVal_hexDigitAscii (E0 / 16) hqhi]
      set q := E0 / 16 with hq
      interval_cases q <;> decide
  · intro bas
    cases bas <;> simp [buildBitmapStr, buildBitmapGo]

/-- Witness: an all-clear 128-bit presence array still emits a 32-hex-char
bitmap whose decoded bit 0 is set. -/
theorem c3_amended_witness :
    (buildBitmapStr [List.replicate 128 false] 1).length = 32 ∧
    (hexToBits (buildBitmapStr [List.replicate 128 false] 1)).getD 0 false = true :=
  c3_amended.1 (List.replicate 128 false) [] (by decide)

/-- Counterexample to C3 as stated: in `msg3` (the repository's 129-entry
field table over a 20-byte buffer with an all-zero bitmap region) no
position above 64 is present, so the claim requires bit 0 of the emitted
bitmap to be clear and the bitmap to be 64 bits; but the serializer writes
the 32 ASCII-hex characters `"8000…0"` at offsets 4..36 — 128 bits with
bit 0 set. -/
theorem c3_counterexample :
    IsoMsg.new authSpecs input3 = some msg3 ∧
    msg3.fields.length = 129 ∧
    ((msg3.fields.drop 65).all fun f => !f.exist) = true ∧
    to_byte_array msg3 buf64 =
      some ([48, 48, 48, 48, 56] ++ List.replicate 59 48, 16) ∧
    (hexToBits ((([48, 48, 48, 48, 56] ++ List.replicate 59 48).drop 4).take 32)).getD 0
      false = true ∧
    ((([48, 48, 48, 48, 56] ++ List.replicate 59 48).drop 4).take 32).length = 32 := by
  refine ⟨by decide, by decide, by decide, by decide, by decide, by decide⟩

/-! ### C1: the round-trip on the repository's own test vector -/

/-- Evaluation of the parser at the exact input of the repository's own
`iso_to_byte_array_test` (which asserts `to_byte_array` reproduces the
298-byte payload): parsing already panics — the garbled cursor walk reads
field 35's LLVAR length prefix at offsets 187..189, which hold two ASCII
spaces, and `from_str_radix("  ").unwrap()` aborts.  No message is ever
produced, so the round-trip the test asserts cannot hold. -/
theorem c1_roundtrip_code_bug_eval :
    from_byte_array authSpecs authPayload = none ∧
    IsoMsg.new authSpecs authPayload = none ∧
    authPayload.length = 298 ∧
    (authPayload.drop 187).take 2 = [32, 32] := by
  refine ⟨by decide, by decide, by decide, by decide⟩

/-! ### C9: serialization is reproducible (lemmas) -/

theorem getD_take_lt {α : Type} :
    ∀ (l : List α) (n j : Nat) (d : α), j < n → (l.take n).getD j d = l.getD j d := by
  intro l
  induction l with
  | nil => intro n j d h; simp
  | cons x xs ih =>
    intro n j d h
    cases n with
    | zero => omega
    | succ n2 =>
      cases j with
      | zero => rfl
      | succ j2 =>
        simp only [List.take_succ_cons, List.getD_cons_succ]
        exact ih n2 j2 d (by omega)

theorem getD_drop {α : Type} :
    ∀ (l : List α) (n j : Nat) (d : α), (l.drop n).getD j d = l.getD (n + j) d := by
  intro l
  induction l with
  | nil => intro n j d; simp
  | cons x xs ih =>
    intro n j d
    cases n with
    | zero => simp
    | succ n2 =>
      simp only [List.drop_succ_cons]
      rw [ih n2 j d, show n2 + 1 + j = (n2 + j) + 1 by omega, List.getD_cons_succ]

/-- Pointwise description of a fitted in-place write. -/
theorem getD_listWrite_char (dst src : List Nat) (p j : Nat)
    (h : p + src.length ≤ dst.length) :
    (listWrite dst p src).getD j 0 =
      if p ≤ j ∧ j < p + src.length then src.getD (j - p) 0 else dst.getD j 0 := by
  have hp : p ≤ dst.length := by omega
  have htk : (dst.take p).length = p := List.length_take_of_le hp
  rcases Nat.lt_or_ge j p with hj | hj
  · rw [if_neg (by omega)]
    rw [listWrite, List.append_assoc,
      getD_append_left (dst.take p) (src ++ dst.drop (p + src.length)) j 0 (by omega)]
    exact getD_take_lt dst p j 0 hj
  · have hsplit := getD_append_right (dst.take p) (src ++ dst.drop (p + src.length))
      (j - p) 0
    rw [htk, show p + (j - p) = j by omega] at hsplit
    rw [listWrite, List.append_assoc, hsplit]
    rcases Nat.lt_or_ge j (p + src.length) with hj2 | hj2
    · rw [if_pos (by omega)]
      exact getD_append_left src (dst.drop (p + src.length)) (j - p) 0 (by omega)
    · rw [if_neg (by omega)]
      have hsplit2 := getD_append_right src (dst.drop (p + src.length))
        (j - p - src.length) 0
      rw [show src.length + (j - p - src.length) = j - p by omega] at hsplit2
      rw [hsplit2, getD_drop, show p + src.length + (j - p - src.length) = j by omega]

/-- Writing into the dropped suffix is the same as an offset in-place write. -/
theorem take_append_write (buf v : List Nat) (bi : Nat) (hbi : bi ≤ buf.length) :
    buf.take bi ++ listWrite (buf.drop bi) 0 v = listWrite buf bi v := by
  simp only [listWrite, List.take_zero, List.nil_append, List.drop_drop]
  rw [List.append_assoc]
  simp

/-- The outcome of `get_field_raw` depends on the buffer only through its
length: either a panic, an error string, or a byte run to write at the
front together with the prefix width. -/
def raw_outcome (m : IsoMsg) (i : Nat) (blen : Nat) :
    Option (Except String (List Nat × Nat)) :=
  if i < m.fields.length then
    let field := m.fields.getD i default
    if field.exist = false then some (.error "Field not set")
    else
      match field.new_payload with
      | some v =>
        if v.length ≤ blen then
          (get_field_len_pfx m.iso_spec i).map fun w => .ok (v, w)
        else some (.error "Input buffer is smaller than field value")
      | none =>
        if field.len = 0 then some (.error "Field not set")
        else if field.len ≤ blen ∧ field.len + field.index ≤ m.payload.length then
          (get_field_len_pfx m.iso_spec i).map fun w =>
            .ok ((m.payload.drop field.index).take field.len, w)
        else some (.error "Input buffer is smaller than field value")
  else none

theorem get_field_raw_eq_outcome (m : IsoMsg) (i : Nat) (b : List Nat) :
    get_field_raw m i b =
      match raw_outcome m i b.length with
      | none => none
      | some (.error e) => some (.error e)
      | some (.ok (v, w)) => some (.ok (listWrite b 0 v, v.length, w)) := by
  by_cases hi : i < m.fields.length
  · by_cases hex : (m.fields.getD i default).exist = false
    · simp [get_field_raw, raw_outcome, -List.getD_eq_getElem?_getD, hi, hex]
    · cases hnp : (m.fields.getD i default).new_payload with
      | some v =>
        by_cases hfit : v.length ≤ b.length
        · cases hpfx : get_field_len_pfx m.iso_spec i <;>
            simp [get_field_raw, raw_outcome, -List.getD_eq_getElem?_getD, hi, hex, hnp, hfit, hpfx]
        · simp [get_field_raw, raw_outcome, -List.getD_eq_getElem?_getD, hi, hex, hnp, hfit]
      | none =>
        by_cases hl0 : (m.fields.getD i default).len = 0
        · simp [get_field_raw, raw_outcome, -List.getD_eq_getElem?_getD, hi, hex, hnp, hl0]
        · by_cases hav : (m.fields.getD i default).len ≤ b.length ∧
              (m.fields.getD i default).len + (m.fields.getD i default).index ≤
                m.payload.length
          · cases hpfx : get_field_len_pfx m.iso_spec i with
            | none => simp [get_field_raw, raw_outcome, -List.getD_eq_getElem?_getD, hi, hex, hnp, hl0, hav, hpfx]
            | some w =>
              have hvl : ((m.payload.drop (m.fields.getD i default).index).take
                  (m.fields.getD i default).len).length =
                  (m.fields.getD i default).len := by
                simp only [List.length_take, List.length_drop]
                omega
              simp [get_field_raw, raw_outcome, -List.getD_eq_getElem?_getD, hi, hex, hnp, hl0, hav, hpfx, hvl]
          · simp [get_field_raw, raw_outcome, -List.getD_eq_getElem?_getD, hi, hex, hnp, hl0, hav]
  · simp [get_field_raw, raw_outcome, -List.getD_eq_getElem?_getD, hi]

/-- A written run always fits the buffer it was accepted for. -/
theorem raw_outcome_fits (m : IsoMsg) (i blen : Nat) (v : List Nat) (w : Nat)
    (h : raw_outcome m i blen = some (.ok (v, w))) : v.length ≤ blen := by
  by_cases hi : i < m.fields.length
  · by_cases hex : (m.fields.getD i default).exist = false
    · simp [raw_outcome, -List.getD_eq_getElem?_getD, hi, hex] at h
    · cases hnp : (m.fields.getD i default).new_payload with
      | some v2 =>
        by_cases hfit : v2.length ≤ blen
        · cases hpfx : get_field_len_pfx m.iso_spec i with
          | none => simp [raw_outcome, -List.getD_eq_getElem?_getD, hi, hex, hnp, hfit, hpfx] at h
          | some w2 =>
            simp only [raw_outcome, hi, if_pos hi, hex, hnp, hfit, hpfx, if_neg hex,
              if_pos hfit, Option.map_some', Option.some.injEq, Except.ok.injEq,
              Prod.mk.injEq] at h
            obtain ⟨hv, -⟩ := h
            omega
        · simp [raw_outcome, -List.getD_eq_getElem?_getD, hi, hex, hnp, hfit] at h
      | none =>
        by_cases hl0 : (m.fields.getD i default).len = 0
        · simp [raw_outcome, -List.getD_eq_getElem?_getD, hi, hex, hnp, hl0] at h
        · by_cases hav : (m.fields.getD i default).len ≤ blen ∧
              (m.fields.getD i default).len + (m.fields.getD i default).index ≤
                m.payload.length
          · cases hpfx : get_field_len_pfx m.iso_spec i with
            | none => simp [raw_outcome, -List.getD_eq_getElem?_getD, hi, hex, hnp, hl0, hav, hpfx] at h
            | some w2 =>
              simp only [raw_outcome, hi, if_pos hi, hex, hnp, hl0, hav, hpfx,
                if_neg hex, if_neg hl0, if_pos hav, Option.map_some',
                Option.some.injEq, Except.ok.injEq, Prod.mk.injEq] at h
              norm_num at h
              obtain ⟨hv, -⟩ := h
              rw [← hv]
              simp only [List.length_take, List.length_drop]
              simp only [List.getD_eq_getElem?_getD] at *
              omega
          · simp [raw_outcome, -List.getD_eq_getElem?_getD, hi, hex, hnp, hl0, hav] at h
  · simp [raw_outcome, -List.getD_eq_getElem?_getD, hi] at h

/-- State equivalence for the emit loop: identical except possibly in the
buffer contents, which must agree in length. -/
def TbaSim (s1 s2 : TbaState) : Prop :=
  s1.bi = s2.bi ∧ s1.found = s2.found ∧ s1.bfi = s2.bfi ∧ s1.bitIdx = s2.bitIdx ∧
  s1.bas = s2.bas ∧ s1.bai = s2.bai ∧ s1.buf.length = s2.buf.length

/-- One emit step behaves the same on equivalent states: it panics together,
and otherwise produces equivalent states whose buffers agree on every
position the step wrote and are untouched elsewhere. -/
theorem tba_step_sim (m : IsoMsg) (idx : Nat) :
    ∀ (s1 s2 : TbaState), TbaSim s1 s2 →
      (tba_step m s1 idx = none → tba_step m s2 idx = none) ∧
      (∀ o1, tba_step m s1 idx = some o1 →
        ∃ o2, tba_step m s2 idx = some o2 ∧ TbaSim o1 o2 ∧
          o1.buf.length = s1.buf.length ∧ o2.buf.length = s2.buf.length ∧
          (∀ j, o1.buf.getD j 0 = o2.buf.getD j 0 ∨
            (o1.buf.getD j 0 = s1.buf.getD j 0 ∧ o2.buf.getD j 0 = s2.buf.getD j 0))) := by
  rintro ⟨b1, bi, fnd, bfi, bitIdx, bas, bai⟩ ⟨b2, bi2, fnd2, bfi2, bitIdx2, bas2, bai2⟩
    ⟨hbi, hf, hbfi, hbit, hbas, hbai, hlen⟩
  dsimp only at hbi hf hbfi hbit hbas hbai hlen
  subst hbi hf hbfi hbit hbas hbai
  simp only [tba_step]
  cases hopt : (if fnd = false then (m.iso_spec.get? idx).map isBmpChar else some false) with
  | none =>
    simp only [Option.none_bind]
    exact ⟨by simp, fun o1 h => by cases h⟩
  | some isBm =>
    simp only [Option.some_bind]
    by_cases hsl : bi ≤ b1.length
    · have hsl2 : bi ≤ b2.length := by omega
      have hsub1 : sliceFrom b1 bi = some (b1.drop bi) := by rw [sliceFrom, if_pos hsl]
      have hsub2 : sliceFrom b2 bi = some (b2.drop bi) := by rw [sliceFrom, if_pos hsl2]
      have hdlen : (b1.drop bi).length = (b2.drop bi).length := by
        simp only [List.length_drop]
        omega
      have hraw1 := get_field_raw_eq_outcome m idx (b1.drop bi)
      have hraw2 := get_field_raw_eq_outcome m idx (b2.drop bi)
      rw [hdlen] at hraw1
      cases isBm with
      | true =>
        simp only [if_true, hsub1, hsub2, Option.some_bind]
        cases hoc : raw_outcome m idx (b2.drop bi).length with
        | none =>
          rw [hoc] at hraw1 hraw2
          simp only [hraw1, hraw2, Option.map_none']
          exact ⟨by simp, fun o1 h => by cases h⟩
        | some res =>
          cases res with
          | error e =>
            rw [hoc] at hraw1 hraw2
            simp only [hraw1, hraw2, Option.map_some']
            refine ⟨by simp, ?_⟩
            intro o1 h
            cases h
            exact ⟨_, rfl, ⟨rfl, rfl, rfl, rfl, rfl, rfl, hlen⟩, rfl, rfl,
              fun j => Or.inr ⟨rfl, rfl⟩⟩
          | ok vw =>
            obtain ⟨v, w⟩ := vw
            rw [hoc] at hraw1 hraw2
            simp only [hraw1, hraw2, Option.map_some']
            refine ⟨by simp, ?_⟩
            intro o1 h
            cases h
            have hfits : v.length ≤ (b2.drop bi).length :=
              raw_outcome_fits m idx _ v w hoc
            have hfits1 : bi + v.length ≤ b1.length := by
              simp only [List.length_drop] at hfits
              omega
            have hfits2 : bi + v.length ≤ b2.length := by
              simp only [List.length_drop] at hfits
              omega
            have hw1 : b1.take bi ++ listWrite (b1.drop bi) 0 v = listWrite b1 bi v :=
              take_append_write b1 v bi hsl
            have hw2 : b2.take bi ++ listWrite (b2.drop bi) 0 v = listWrite b2 bi v :=
              take_append_write b2 v bi hsl2
            refine ⟨_, rfl, ⟨rfl, rfl, rfl, rfl, rfl, rfl, ?_⟩, ?_, ?_, ?_⟩
            · dsimp only
              rw [hw1, hw2, listWrite_length b1 v bi hfits1,
                listWrite_length b2 v bi hfits2]
              exact hlen
            · dsimp only
              rw [hw1, listWrite_length b1 v bi hfits1]
            · dsimp only
              rw [hw2, listWrite_length b2 v bi hfits2]
            · intro j
              dsimp only
              rw [hw1, hw2, getD_listWrite_char b1 v bi j hfits1,
                getD_listWrite_char b2 v bi j hfits2]
              by_cases hj : bi ≤ j ∧ j < bi + v.length
              · rw [if_pos hj, if_pos hj]
                exact Or.inl rfl
              · rw [if_neg hj, if_neg hj]
                exact Or.inr ⟨rfl, rfl⟩
      | false =>
        simp only [Bool.false_eq_true, if_false, hsub1, hsub2, Option.some_bind]
        cases hoc : raw_outcome m idx (b2.drop bi).length with
        | none =>
          rw [hoc] at hraw1 hraw2
          simp only [hraw1, hraw2, Option.none_bind]
          exact ⟨by simp, fun o1 h => by cases h⟩
        | some res =>
          cases res with
          | error e =>
            rw [hoc] at hraw1 hraw2
            simp only [hraw1, hraw2, Option.some_bind]
            refine ⟨by simp, ?_⟩
            intro o1 h
            cases h
            exact ⟨_, rfl, ⟨rfl, rfl, rfl, rfl, rfl, rfl, hlen⟩, rfl, rfl,
              fun j => Or.inr ⟨rfl, rfl⟩⟩
          | ok vw =>
            obtain ⟨v, w⟩ := vw
            rw [hoc] at hraw1 hraw2
            simp only [hraw1, hraw2, Option.some_bind]
            have hfits : v.length ≤ (b2.drop bi).length :=
              raw_outcome_fits m idx _ v w hoc
            have hfits1 : bi + v.length ≤ b1.length := by
              simp only [List.length_drop] at hfits
              omega
            have hfits2 : bi + v.length ≤ b2.length := by
              simp only [List.length_drop] at hfits
              omega
            have hw1 : b1.take bi ++ listWrite (b1.drop bi) 0 v = listWrite b1 bi v :=
              take_append_write b1 v bi hsl
            have hw2 : b2.take bi ++ listWrite (b2.drop bi) 0 v = listWrite b2 bi v :=
              take_append_write b2 v bi hsl2
            cases fnd with
            | false =>
              simp only [Bool.false_eq_true, if_false, Option.map_some']
              refine ⟨by simp, ?_⟩
              intro o1 h
              cases h
              refine ⟨_, rfl, ⟨rfl, rfl, rfl, rfl, rfl, rfl, ?_⟩, ?_, ?_, ?_⟩
              · dsimp only
                rw [hw1, hw2, listWrite_length b1 v bi hfits1,
                  listWrite_length b2 v bi hfits2]
                exact hlen
              · dsimp only
                rw [hw1, listWrite_length b1 v bi hfits1]
              · dsimp only
                rw [hw2, listWrite_length b2 v bi hfits2]
              · intro j
                dsimp only
                rw [hw1, hw2, getD_listWrite_char b1 v bi j hfits1,
                  getD_listWrite_char b2 v bi j hfits2]
                by_cases hj : bi ≤ j ∧ j < bi + v.length
                · rw [if_pos hj, if_pos hj]
                  exact Or.inl rfl
                · rw [if_neg hj, if_neg hj]
                  exact Or.inr ⟨rfl, rfl⟩
            | true =>
              simp only [if_true]
              cases hget : bas.get? (idx / 128) with
              | none =>
                simp only [hget, Option.map_none']
                exact ⟨by simp, fun o1 h => by cases h⟩
              | some ba =>
                simp only [hget]
                by_cases hbnd : idx - bfi < 128
                · rw [if_pos hbnd, if_pos hbnd]
                  simp only [Option.map_some']
                  refine ⟨by simp, ?_⟩
                  intro o1 h
                  cases h
                  refine ⟨_, rfl, ⟨rfl, rfl, rfl, rfl, rfl, rfl, ?_⟩, ?_, ?_, ?_⟩
                  · dsimp only
                    rw [hw1, hw2, listWrite_length b1 v bi hfits1,
                      listWrite_length b2 v bi hfits2]
                    exact hlen
                  · dsimp only
                    rw [hw1, listWrite_length b1 v bi hfits1]
                  · dsimp only
                    rw [hw2, listWrite_length b2 v bi hfits2]
                  · intro j
                    dsimp only
                    rw [hw1, hw2, getD_listWrite_char b1 v bi j hfits1,
                      getD_listWrite_char b2 v bi j hfits2]
                    by_cases hj : bi ≤ j ∧ j < bi + v.length
                    · rw [if_pos hj, if_pos hj]
                      exact Or.inl rfl
                    · rw [if_neg hj, if_neg hj]
                      exact Or.inr ⟨rfl, rfl⟩
                · rw [if_neg hbnd, if_neg hbnd]
                  simp only [Option.map_none']
                  exact ⟨by simp, fun o1 h => by cases h⟩
    · have hsl2 : ¬ bi ≤ b2.length := by omega
      have hsub1 : sliceFrom b1 bi = none := by rw [sliceFrom, if_neg hsl]
      have hsub2 : sliceFrom b2 bi = none := by rw [sliceFrom, if_neg hsl2]
      cases isBm with
      | true =>
        simp only [if_true, hsub1, hsub2, Option.none_bind]
        exact ⟨by simp, fun o1 h => by cases h⟩
      | false =>
        simp only [Bool.false_eq_true, if_false, hsub1, hsub2, Option.none_bind]
        exact ⟨by simp, fun o1 h => by cases h⟩

/-- The whole emit loop behaves the same on equivalent states. -/
theorem tba_loop_sim (m : IsoMsg) :
    ∀ (idxs : List Nat) (s1 s2 : TbaState), TbaSim s1 s2 →
      (tba_loop m idxs s1 = none → tba_loop m idxs s2 = none) ∧
      (∀ o1, tba_loop m idxs s1 = some o1 →
        ∃ o2, tba_loop m idxs s2 = some o2 ∧ TbaSim o1 o2 ∧
          o1.buf.length = s1.buf.length ∧ o2.buf.length = s2.buf.length ∧
          (∀ j, o1.buf.getD j 0 = o2.buf.getD j 0 ∨
            (o1.buf.getD j 0 = s1.buf.getD j 0 ∧ o2.buf.getD j 0 = s2.buf.getD j 0))) := by
  intro idxs
  induction idxs with
  | nil =>
    intro s1 s2 hsim
    simp only [tba_loop]
    refine ⟨by simp, ?_⟩
    intro o1 h
    cases h
    exact ⟨s2, rfl, hsim, rfl, rfl, fun j => Or.inr ⟨rfl, rfl⟩⟩
  | cons idx rest ih =>
    intro s1 s2 hsim
    simp only [tba_loop]
    obtain ⟨hnone, hsome⟩ := tba_step_sim m idx s1 s2 hsim
    cases hstep : tba_step m s1 idx with
    | none =>
      rw [hnone hstep]
      simp only [Option.none_bind]
      exact ⟨by simp, fun o1 h => by cases h⟩
    | some st1 =>
      obtain ⟨st2, hstep2, hsim2, hl1, hl2, hdis⟩ := hsome st1 hstep
      rw [hstep2]
      simp only [Option.some_bind]
      obtain ⟨hnone2, hsome2⟩ := ih st1 st2 hsim2
      refine ⟨hnone2, ?_⟩
      intro o1 h
      obtain ⟨o2, ho2, hsimo, hlo1, hlo2, hdiso⟩ := hsome2 o1 h
      refine ⟨o2, ho2, hsimo, by omega, by omega, ?_⟩
      intro j
      rcases hdiso j with h1 | ⟨h1, h2⟩
      · exact Or.inl h1
      · rcases hdis j with h3 | ⟨h3, h4⟩
        · exact Or.inl (by rw [h1, h2, h3])
        · exact Or.inr ⟨by rw [h1, h3], by rw [h2, h4]⟩

/-- Pointwise-equal lists of equal length are equal. -/
theorem list_eq_of_getD :
    ∀ (l1 l2 : List Nat), l1.length = l2.length →
      (∀ j, l1.getD j 0 = l2.getD j 0) → l1 = l2 := by
  intro l1
  induction l1 with
  | nil =>
    intro l2 hl _
    cases l2 with
    | nil => rfl
    | cons y ys => simp at hl
  | cons x xs ih =>
    intro l2 hl hp
    cases l2 with
    | nil => simp at hl
    | cons y ys =>
      have hx : x = y := hp 0
      have : xs = ys := by
        refine ih ys (by simpa using hl) ?_
        intro j
        have := hp (j + 1)
        simpa using this
      rw [hx, this]

/-- Serialization is reproducible: if `to_byte_array` fills `buf` producing
the bytes `out` and count `n`, then running it again on its own output — as
the caller does when reusing the destination buffer — returns exactly the
same bytes and the same count.  Since `to_byte_array` takes the message by
shared reference, the message itself cannot change between the calls. -/
theorem c9_idempotent_emit (m : IsoMsg) (buf out : List Nat) (n : Nat)
    (h : to_byte_array m buf = some (out, n)) :
    to_byte_array m out = some (out, n) := by
  simp only [to_byte_array] at h ⊢
  by_cases hspec : m.iso_spec.length = 0
  · rw [if_pos hspec] at h
    cases h
  · rw [if_neg hspec] at h ⊢
    cases hloop : tba_loop m (List.range m.fields.length)
        ⟨buf, 0, false, 0, 0,
          List.replicate ((m.iso_spec.length - 1 + 63) / 128) bitarray_false, 0⟩ with
    | none => rw [hloop] at h; cases h
    | some stf =>
      rw [hloop] at h
      simp only [Option.some_bind] at h
      by_cases hcond : stf.bitIdx + (buildBitmapStr stf.bas stf.bai).length ≤
          stf.buf.length
      · rw [if_pos hcond] at h
        have hout : listWrite stf.buf stf.bitIdx (buildBitmapStr stf.bas stf.bai) =
            out ∧ stf.bi = n := by
          cases h
          exact ⟨rfl, rfl⟩
        obtain ⟨hout, hn⟩ := hout
        obtain ⟨-, hsomeR⟩ := tba_loop_sim m (List.range m.fields.length)
          ⟨buf, 0, false, 0, 0,
            List.replicate ((m.iso_spec.length - 1 + 63) / 128) bitarray_false, 0⟩
          ⟨buf, 0, false, 0, 0,
            List.replicate ((m.iso_spec.length - 1 + 63) / 128) bitarray_false, 0⟩
          ⟨rfl, rfl, rfl, rfl, rfl, rfl, rfl⟩
        obtain ⟨o2x, -, -, hlstf, -, -⟩ := hsomeR stf hloop
        dsimp only at hlstf
        have houtlen : out.length = buf.length := by
          rw [← hout, listWrite_length _ _ _ hcond, hlstf]
        obtain ⟨-, hsome2⟩ := tba_loop_sim m (List.range m.fields.length)
          ⟨buf, 0, false, 0, 0,
            List.replicate ((m.iso_spec.length - 1 + 63) / 128) bitarray_false, 0⟩
          ⟨out, 0, false, 0, 0,
            List.replicate ((m.iso_spec.length - 1 + 63) / 128) bitarray_false, 0⟩
          ⟨rfl, rfl, rfl, rfl, rfl, rfl, by dsimp only; omega⟩
        obtain ⟨st2, hloop2, hsim2, hlen1, hlen2, hdis⟩ := hsome2 stf hloop
        rw [hloop2]
        simp only [Option.some_bind]
        obtain ⟨hbi2, hfnd2, hbfi2, hbit2, hbas2, hbai2, hblen2⟩ := hsim2
        dsimp only at hlen1 hlen2
        have hbm2 : buildBitmapStr st2.bas st2.bai = buildBitmapStr stf.bas stf.bai := by
          rw [← hbas2, ← hbai2]
        have hbmlen : (buildBitmapStr st2.bas st2.bai).length =
            (buildBitmapStr stf.bas stf.bai).length := by rw [hbm2]
        have hstf2len : st2.buf.length = stf.buf.length := by omega
        have hcond2 : st2.bitIdx + (buildBitmapStr st2.bas st2.bai).length ≤
            st2.buf.length := by
          rw [hbmlen, ← hbit2]
          omega
        rw [if_pos hcond2]
        have hfit2 : st2.bitIdx + (buildBitmapStr st2.bas st2.bai).length ≤
            st2.buf.length := hcond2
        have hwrite : listWrite st2.buf st2.bitIdx (buildBitmapStr st2.bas st2.bai) =
            out := by
          apply list_eq_of_getD
          · rw [listWrite_length _ _ _ hfit2]
            omega
          · intro j
            rw [hbm2, ← hbit2]
            rw [getD_listWrite_char st2.buf (buildBitmapStr stf.bas stf.bai) stf.bitIdx j
              (by omega)]
            rw [← hout,
              getD_listWrite_char stf.buf (buildBitmapStr stf.bas stf.bai) stf.bitIdx j
                hcond]
            by_cases hj : stf.bitIdx ≤ j ∧
                j < stf.bitIdx + (buildBitmapStr stf.bas stf.bai).length
            · rw [if_pos hj, if_pos hj]
            · rw [if_neg hj, if_neg hj]
              rcases hdis j with h1 | ⟨h1, h2⟩
              · exact h1.symm
              · dsimp only at h2
                rw [h2, ← hout,
                  getD_listWrite_char stf.buf (buildBitmapStr stf.bas stf.bai)
                    stf.bitIdx j hcond, if_neg hj]
        rw [hwrite, ← hbi2, hn]
      · rw [if_neg hcond] at h
        cases h

/-- The output of `to_byte_array msgS` on a fresh 40-byte buffer of ASCII
zeros: MTI, the 12 copied bitmap-slot bytes, and the untouched tail. -/
def outS : List Nat := [48, 49, 48, 48] ++ List.replicate 12 0 ++ List.replicate 24 48

/-- Witness: run the serializer again on its own output. -/
theorem c9_idempotent_emit_witness : to_byte_array msgS outS = some (outS, 16) :=
  c9_idempotent_emit msgS (List.replicate 40 48) outS 16 (by decide)

end Iso8583
